import Mathlib

/-!
Verification development for the MovieLens knowledge-graph construction
script (`kg-construction.py`).  The script is a linear pipeline of Cypher
queries against a property-graph store; we embed the graph state and the
effect of each query as executable Lean definitions and prove the spec's
claims about them.

Modelling conventions:
* Cypher floats are modelled as `ℚ` (the script only multiplies, divides
  and compares finite decimal literals).
* A Cypher `null` scalar is `Option.none`.
* `MERGE` on a node/edge is upsert-by-key (create only if absent);
  `CREATE` always appends a new edge; `SET` overwrites a property.
* A Cypher aggregation row set (`WITH k1, k2, count(*)`) is modelled as
  the list of distinct grouping keys in first-occurrence order, each with
  the count of matched rows bearing that exact key.
-/

namespace Movielens

/-- ASCII lower-casing of one character, modelling Cypher `toLower` on the
ASCII inputs the data set uses. -/
def lowerChar (c : Char) : Char :=
  if 'A' ≤ c ∧ c ≤ 'Z' then Char.ofNat (c.toNat + 32) else c

/-- Whitespace test used by Cypher `trim`. -/
def isSpaceChar (c : Char) : Bool :=
  c = ' ' || c = '\t' || c = '\n' || c = '\r'

/-- Cypher `trim`: strip leading and trailing whitespace. -/
def trimString (s : String) : String :=
  ⟨((s.toList.dropWhile isSpaceChar).reverse.dropWhile isSpaceChar).reverse⟩

/-- Cypher `toLower`. -/
def toLowerString (s : String) : String :=
  ⟨s.toList.map lowerChar⟩

/-- The tag key used in the normalization query: `trim(toLower(rawTag))`. -/
def normTag (s : String) : String :=
  trimString (toLowerString s)

/-- Cypher `split(s, '|')` on the character list. -/
def splitPipeChars : List Char → List (List Char)
  | [] => [[]]
  | c :: rest =>
    let r := splitPipeChars rest
    if c = '|' then [] :: r
    else
      match r with
      | [] => [[c]]
      | h :: t => (c :: h) :: t

/-- Cypher `split(s, '|')`, already trimmed per the `FOREACH` bodies of the
movie query, which always apply `trim` to each token. -/
def splitTrim (s : String) : List String :=
  (splitPipeChars s.toList).map (fun cs => trimString ⟨cs⟩)

/-- Digit value of a character, if it is a decimal digit. -/
def digitVal (c : Char) : Option Nat :=
  if '0' ≤ c ∧ c ≤ '9' then some (c.toNat - 48) else none

/-- Parse a non-empty all-digit character list as a natural number. -/
def parseNatChars : List Char → Option Nat
  | [] => none
  | cs => cs.foldl (fun acc c =>
      match acc, digitVal c with
      | some n, some d => some (n * 10 + d)
      | _, _ => none) (some 0)

/-- Cypher `toInteger` on a string: optional sign then digits, else `null`. -/
def toInteger (s : String) : Option Int :=
  match s.toList with
  | '-' :: rest => (parseNatChars rest).map (fun n => -(n : Int))
  | cs => (parseNatChars cs).map (fun n => (n : Int))

/-- Split a character list at the first `'.'`, if any. -/
def splitAtDot : List Char → List Char × Option (List Char)
  | [] => ([], none)
  | '.' :: rest => ([], some rest)
  | c :: rest =>
    let (l, r) := splitAtDot rest
    (c :: l, r)

/-- Parse an unsigned decimal numeral (`digits` or `digits.digits`). -/
def parseUnsignedDec (cs : List Char) : Option ℚ :=
  match splitAtDot cs with
  | (intPart, none) => (parseNatChars intPart).map (fun n => (n : ℚ))
  | (intPart, some fracPart) =>
    match parseNatChars intPart, parseNatChars fracPart with
    | some n, some f => some ((n : ℚ) + (f : ℚ) / ((10 : ℚ) ^ fracPart.length))
    | _, _ => none

/-- Cypher `toFloat` on a string: a decimal numeral with optional sign and
optional fractional part, else `null`. -/
def toFloat (s : String) : Option ℚ :=
  match s.toList with
  | '-' :: rest => (parseUnsignedDec rest).map (fun q => -q)
  | cs => parseUnsignedDec cs

/-- A calendar date as produced by Cypher `date("YYYY-MM-DD")`. -/
structure SimpleDate where
  year : Int
  month : Nat
  day : Nat
deriving DecidableEq, Repr

/-- Split a character list on `'-'`. -/
def splitDashChars : List Char → List (List Char)
  | [] => [[]]
  | c :: rest =>
    let r := splitDashChars rest
    if c = '-' then [] :: r
    else
      match r with
      | [] => [[c]]
      | h :: t => (c :: h) :: t

/-- Cypher `date(s)` for the `YYYY-MM-DD` form: three dash-separated digit
groups with a valid month and day.  On any other input the Cypher `date`
function raises an error, modelled as `none` (the caller turns it into a
query failure). -/
def parseDate (s : String) : Option SimpleDate :=
  match splitDashChars s.toList with
  | [y, m, d] =>
    match parseNatChars y, parseNatChars m, parseNatChars d with
    | some yv, some mv, some dv =>
      if 1 ≤ mv ∧ mv ≤ 12 ∧ 1 ≤ dv ∧ dv ≤ 31 then
        some ⟨(yv : Int), mv, dv⟩
      else none
    | _, _, _ => none
  | _ => none

/-- A `Movie` node with the properties set by the movie-loading query. -/
structure MovieNode where
  id : String
  title : String
  tagline : String
  released : SimpleDate
  imdbRating : Option ℚ
  releaseYear : Int
deriving DecidableEq, Repr

/-- A `RATED` edge (created by `CREATE`, so duplicates are possible). -/
structure RatedEdge where
  user : String
  movie : String
  rating : Option ℚ
  timestamp : Option Int
deriving DecidableEq, Repr

/-- A transient `TAGGED` edge (raw tag application). -/
structure TaggedEdge where
  user : String
  movie : String
  tag : String
  timestamp : Option Int
deriving DecidableEq, Repr

/-- A `HAS_TAG` edge (merged by endpoints; `weight` overwritten by `SET`). -/
structure HasTagEdge where
  movie : String
  tag : String
  weight : ℚ
deriving DecidableEq, Repr

/-- An `APPLIED_TAG` edge (merged by endpoints; timestamp overwritten). -/
structure AppliedTagEdge where
  user : String
  tag : String
  timestamp : Option Int
deriving DecidableEq, Repr

/-- The property-graph state touched by the pipeline.  Node properties
computed by the enrichment passes are stored in association lists keyed by
the node key; a key absent from the list models an unset property. -/
structure Graph where
  users : List String
  movies : List MovieNode
  persons : List String
  genres : List String
  tags : List String
  directed : List (String × String)
  acted : List (String × String)
  inGenre : List (String × String)
  rated : List RatedEdge
  tagged : List TaggedEdge
  hasTag : List HasTagEdge
  applied : List AppliedTagEdge
  actorLabel : List String
  directorLabel : List String
  userAvgRating : List (String × Option ℚ)
  userTotalRatings : List (String × Nat)
  personAvgRating : List (String × Option ℚ)
  personMovieCount : List (String × Nat)
  tagUsageCount : List (String × Nat)
deriving DecidableEq, Repr

/-- The empty graph (the script's first comment wipes the database). -/
def emptyGraph : Graph :=
  ⟨[], [], [], [], [], [], [], [], [], [], [], [], [], [], [], [], [], [], []⟩

/-- `MERGE` of a keyed node into a key list: append only if absent. -/
def addIfAbsent {α : Type} [DecidableEq α] (x : α) (l : List α) : List α :=
  if x ∈ l then l else l ++ [x]

/-- Replace the value of the first entry with the given key, or append. -/
def updateAssoc {κ β : Type} [DecidableEq κ] :
    List (κ × β) → κ → β → List (κ × β)
  | [], k, v => [(k, v)]
  | (k', v') :: rest, k, v =>
    if k' = k then (k, v) :: rest else (k', v') :: updateAssoc rest k v

/-- Look up the first entry with the given key. -/
def lookupA {κ β : Type} [DecidableEq κ] : List (κ × β) → κ → Option β
  | [], _ => none
  | (k', v) :: rest, k => if k' = k then some v else lookupA rest k

/-! ### STEP 0–1: schema setup -/

/-- The named schema declarations currently present in the store. -/
structure SchemaState where
  constraints : List String
  indexes : List String
deriving DecidableEq, Repr

/-- `DROP CONSTRAINT n IF EXISTS`: removes the constraint when present and
is a no-op (not an error) otherwise. -/
def dropConstraintIfExists (s : SchemaState) (n : String) : SchemaState :=
  { s with constraints := s.constraints.filter (fun c => c ≠ n) }

/-- `DROP INDEX n IF EXISTS`. -/
def dropIndexIfExists (s : SchemaState) (n : String) : SchemaState :=
  { s with indexes := s.indexes.filter (fun c => c ≠ n) }

/-- `CREATE CONSTRAINT n IF NOT EXISTS`. -/
def createConstraintIfNotExists (s : SchemaState) (n : String) : SchemaState :=
  if n ∈ s.constraints then s else { s with constraints := s.constraints ++ [n] }

/-- `CREATE INDEX n IF NOT EXISTS`. -/
def createIndexIfNotExists (s : SchemaState) (n : String) : SchemaState :=
  if n ∈ s.indexes then s else { s with indexes := s.indexes ++ [n] }

/-- STEP 0 and STEP 1 of the script, in source order: drop five constraints
and five indexes, then create the `User` uniqueness constraint and the
`Movie.id`, `Person.name` and `Tag.name` indexes. -/
def ensureSchema (s : SchemaState) : SchemaState :=
  let s := dropConstraintIfExists s "unique_user_id"
  let s := dropConstraintIfExists s "unique_movie_id"
  let s := dropConstraintIfExists s "unique_person_name"
  let s := dropConstraintIfExists s "unique_tag_name"
  let s := dropConstraintIfExists s "unique_genre_name"
  let s := dropIndexIfExists s "movie_id_index"
  let s := dropIndexIfExists s "user_id_index"
  let s := dropIndexIfExists s "person_name_index"
  let s := dropIndexIfExists s "tag_name_index"
  let s := dropIndexIfExists s "genre_name_index"
  let s := createConstraintIfNotExists s "unique_user_id"
  let s := createIndexIfNotExists s "movie_id_index"
  let s := createIndexIfNotExists s "person_name_index"
  let s := createIndexIfNotExists s "tag_name_index"
  s

/-! ### STEP 2: movie loading -/

/-- One CSV row of the movies feed. -/
structure MovieRow where
  movieId : String
  title : String
  tagline : String
  released : String
  imdbRating : String
  director : String
  actors : String
  genres : String
deriving DecidableEq, Repr

/-- `MERGE (m:Movie {id: …})` followed by `SET` of all scalar properties:
overwrite the node with that id, or append a fresh one. -/
def upsertMovie (g : Graph) (m : MovieNode) : Graph :=
  if g.movies.any (fun old => old.id == m.id) then
    { g with movies := g.movies.map (fun old => if old.id = m.id then m else old) }
  else
    { g with movies := g.movies ++ [m] }

/-- One `FOREACH` body of the movie query: `MERGE` the `Person` node by
trimmed name and `MERGE` one edge to the movie (into the given edge list). -/
def addPersonEdge (persons : List String) (edges : List (String × String))
    (name : String) (movieId : String) : List String × List (String × String) :=
  (addIfAbsent name persons, addIfAbsent (name, movieId) edges)

/-- The `FOREACH` over `split(row.director, '|')`. -/
def addDirectorsFold (mid : String) (g : Graph) (names : List String) : Graph :=
  names.foldl (fun g name =>
    let (ps, es) := addPersonEdge g.persons g.directed name mid
    { g with persons := ps, directed := es }) g

/-- The `FOREACH` over `split(row.actors, '|')`. -/
def addActorsFold (mid : String) (g : Graph) (names : List String) : Graph :=
  names.foldl (fun g name =>
    let (ps, es) := addPersonEdge g.persons g.acted name mid
    { g with persons := ps, acted := es }) g

/-- The `FOREACH` over `split(row.genres, '|')`: `MERGE` the `Genre` node
and `MERGE` the `IN_GENRE` edge. -/
def addGenresFold (mid : String) (g : Graph) (names : List String) : Graph :=
  names.foldl (fun g name =>
    { g with genres := addIfAbsent name g.genres,
             inGenre := addIfAbsent (mid, name) g.inGenre }) g

/-- Effect of one movies row, given its successfully parsed release date. -/
def movieRowEffect (g : Graph) (row : MovieRow) (d : SimpleDate) : Graph :=
  let m : MovieNode :=
    { id := row.movieId, title := row.title, tagline := row.tagline,
      released := d, imdbRating := toFloat row.imdbRating, releaseYear := d.year }
  addGenresFold row.movieId
    (addActorsFold row.movieId
      (addDirectorsFold row.movieId (upsertMovie g m) (splitTrim row.director))
      (splitTrim row.actors))
    (splitTrim row.genres)

/-- Process one movies row.  `date(row.released)` raises an error on a
malformed date, which fails the whole query; `toFloat` on a non-numeric
rating silently yields `null`. -/
def processMovieRow (g : Graph) (row : MovieRow) : Except String Graph :=
  match parseDate row.released with
  | none => .error "date parse failure"
  | some d => .ok (movieRowEffect g row d)

/-- STEP 2: run the movie query over all rows; any row failure fails the
whole query. -/
def loadMovies (g : Graph) (rows : List MovieRow) : Except String Graph :=
  rows.foldlM processMovieRow g

/-! ### STEP 3: role labels -/

/-- `MATCH (p:Person)-[:ACTED_IN]->() SET p:Actor`. -/
def addActorLabels (g : Graph) : Graph :=
  let lbl := g.persons.foldl
    (fun acc p => if g.acted.any (fun e => e.1 == p) then addIfAbsent p acc else acc)
    g.actorLabel
  { g with actorLabel := lbl }

/-- `MATCH (p:Person)-[:DIRECTED]->() SET p:Director`. -/
def addDirectorLabels (g : Graph) : Graph :=
  let lbl := g.persons.foldl
    (fun acc p => if g.directed.any (fun e => e.1 == p) then addIfAbsent p acc else acc)
    g.directorLabel
  { g with directorLabel := lbl }

/-! ### STEP 4: ratings loading -/

/-- One CSV row of the ratings feed. -/
structure RatingRow where
  userId : String
  movieId : String
  rating : String
  timestamp : String
deriving DecidableEq, Repr

/-- Does a `Movie` node with this id exist? -/
def movieExists (g : Graph) (mid : String) : Bool :=
  g.movies.any (fun m => m.id == mid)

/-- One row of the ratings query: `MERGE` the `User`, then `MATCH` the
`Movie` by id — if it is absent the row yields no match rows after that
point, so no edge is created and no error is raised — and otherwise
`CREATE` a fresh `RATED` edge with the parsed rating and timestamp. -/
def processRatingRow (g : Graph) (row : RatingRow) : Graph :=
  let g := { g with users := addIfAbsent row.userId g.users }
  if movieExists g row.movieId then
    { g with rated := g.rated ++
        [⟨row.userId, row.movieId, toFloat row.rating, toInteger row.timestamp⟩] }
  else g

/-- STEP 4: the ratings query over all rows.  The `CALL { … } IN
TRANSACTIONS OF 1000 ROWS` batching only affects transaction boundaries;
the per-row effect is sequential. -/
def loadRatings (g : Graph) (rows : List RatingRow) : Graph :=
  rows.foldl processRatingRow g

/-! ### STEP 5: tag loading, normalization and cleanup -/

/-- One CSV row of the tags feed. -/
structure TagRow where
  userId : String
  movieId : String
  tag : String
  timestamp : String
deriving DecidableEq, Repr

/-- One row of the raw tags query: `MERGE` the `User`, `MATCH` the `Movie`
(referential guard as in the ratings query), then `CREATE` a transient
`TAGGED` edge carrying the raw tag text and timestamp. -/
def processTagRow (g : Graph) (row : TagRow) : Graph :=
  let g := { g with users := addIfAbsent row.userId g.users }
  if movieExists g row.movieId then
    { g with tagged := g.tagged ++
        [⟨row.userId, row.movieId, row.tag, toInteger row.timestamp⟩] }
  else g

/-- Phase A of STEP 5. -/
def loadTags (g : Graph) (rows : List TagRow) : Graph :=
  rows.foldl processTagRow g

/-- The grouping key of the normalization query's `WITH` clause: every
non-aggregated projection is a grouping key, so the rows are grouped by
`(m, t.tag, t.timestamp, u)` — not by `(m, t.tag)` alone. -/
structure TagGroupKey where
  movie : String
  rawTag : String
  timestamp : Option Int
  user : String
deriving DecidableEq, Repr

/-- The grouping key of one `TAGGED` edge. -/
def taggedKey (e : TaggedEdge) : TagGroupKey :=
  ⟨e.movie, e.tag, e.timestamp, e.user⟩

/-- Distinct grouping keys in first-occurrence order. -/
def groupKeysOf (l : List TaggedEdge) : List TagGroupKey :=
  l.foldl (fun acc e => addIfAbsent (taggedKey e) acc) []

/-- `count(*)` for one group: the number of matched edges with that key. -/
def freqOf (l : List TaggedEdge) (k : TagGroupKey) : Nat :=
  (l.filter (fun e => taggedKey e == k)).length

/-- `MERGE (m)-[rel:HAS_TAG]->(tag)` followed by `SET rel.weight := w`:
overwrite the weight of the existing edge, or append a fresh edge. -/
def upsertHasTag (g : Graph) (mid tagName : String) (w : ℚ) : Graph :=
  if g.hasTag.any (fun e => e.movie == mid && e.tag == tagName) then
    { g with hasTag := g.hasTag.map (fun e =>
        if e.movie = mid ∧ e.tag = tagName then ⟨mid, tagName, w⟩ else e) }
  else
    { g with hasTag := g.hasTag ++ [⟨mid, tagName, w⟩] }

/-- `MERGE (u)-[ut:APPLIED_TAG]->(tag)` followed by `SET ut.timestamp`. -/
def upsertApplied (g : Graph) (uid tagName : String) (ts : Option Int) : Graph :=
  if g.applied.any (fun e => e.user == uid && e.tag == tagName) then
    { g with applied := g.applied.map (fun e =>
        if e.user = uid ∧ e.tag = tagName then ⟨uid, tagName, ts⟩ else e) }
  else
    { g with applied := g.applied ++ [⟨uid, tagName, ts⟩] }

/-- Effect of one aggregation row of the normalization query: `MERGE` the
`Tag` node keyed by `trim(toLower(rawTag))`, upsert the `HAS_TAG` edge and
set its weight to `tagFrequency * 0.1`, upsert the `APPLIED_TAG` edge and
set its timestamp. -/
def applyTagGroup (g : Graph) (k : TagGroupKey) (freq : Nat) : Graph :=
  let name := normTag k.rawTag
  let g := { g with tags := addIfAbsent name g.tags }
  let g := upsertHasTag g k.movie name ((freq : ℚ) * (1 / 10))
  upsertApplied g k.user name k.timestamp

/-- The match rows of `MATCH (u:User)-[t:TAGGED]->(m:Movie)`: transient
edges whose endpoints exist. -/
def taggedMatchRows (g : Graph) : List TaggedEdge :=
  g.tagged.filter (fun e => g.users.contains e.user && movieExists g e.movie)

/-- Phase B of STEP 5: the `tag_normalization_query`.  The `WITH` clause
groups the matched transient edges by `(m, rawTag, timestamp, u)` with
`count(*)` per group, and the `MERGE`/`SET` clauses run once per group
row. -/
def tag_normalization (g : Graph) : Graph :=
  (groupKeysOf (taggedMatchRows g)).foldl
    (fun acc k => applyTagGroup acc k (freqOf (taggedMatchRows g) k)) g

/-- Phase C of STEP 5: `MATCH ()-[t:TAGGED]->() DELETE t`. -/
def deleteTagged (g : Graph) : Graph :=
  { g with tagged := [] }

/-! ### STEP 6–7: derived statistics -/

/-- Run one aggregation-and-`SET` pass over a key list: for each key whose
value function yields a row, overwrite that key's entry in the property
store.  Keys with no aggregation row are untouched. -/
def setForEach {κ β : Type} [DecidableEq κ] (keys : List κ) (val : κ → Option β)
    (store : List (κ × β)) : List (κ × β) :=
  keys.foldl (fun acc k =>
    match val k with
    | none => acc
    | some v => updateAssoc acc k v) store

/-- The match rows of `MATCH (u:User)-[r:RATED]->(m:Movie)` for one user:
the `RATED` edges from that user whose target `Movie` exists. -/
def ratedRowsOf (g : Graph) (u : String) : List RatedEdge :=
  g.rated.filter (fun r => r.user == u && movieExists g r.movie)

/-- Cypher `avg` over possibly-`null` values: `null`s are skipped, and the
result is `null` when no non-`null` value exists. -/
def cypherAvg (l : List (Option ℚ)) : Option ℚ :=
  let vals := l.filterMap id
  if vals.length = 0 then none else some (vals.sum / (vals.length : ℚ))

/-- STEP 6: `user_enrichment_query`.  For each `User` with at least one
matched `RATED` row, overwrite `avgRating` with `avg(r.rating)` and
`totalRatings` with `count(*)`; users with no row are untouched. -/
def user_enrichment (g : Graph) : Graph :=
  let avgVal := fun u =>
    let es := ratedRowsOf g u
    if es.isEmpty then none else some (cypherAvg (es.map (fun r => r.rating)))
  let cntVal := fun u =>
    let es := ratedRowsOf g u
    if es.isEmpty then none else some es.length
  { g with userAvgRating := setForEach g.users avgVal g.userAvgRating,
           userTotalRatings := setForEach g.users cntVal g.userTotalRatings }

/-- The match rows of `MATCH (d:Director)-[:DIRECTED]->(m:Movie)` for one
director: one row per `DIRECTED` edge whose target `Movie` exists. -/
def directedMoviesOf (g : Graph) (p : String) : List MovieNode :=
  (g.directed.filter (fun e => e.1 == p)).flatMap
    (fun e => g.movies.filter (fun m => m.id == e.2))

/-- First pass of STEP 7: per `Director`, overwrite `avgRating` with
`avg(m.imdbRating)` and `movieCount` with `count(m)`. -/
def directorStats (g : Graph) : Graph :=
  let avgVal := fun p =>
    let ms := directedMoviesOf g p
    if ms.isEmpty then none
    else some (cypherAvg (ms.map (fun m => m.imdbRating)))
  let cntVal := fun p =>
    let ms := directedMoviesOf g p
    if ms.isEmpty then none else some ms.length
  { g with personAvgRating := setForEach g.directorLabel avgVal g.personAvgRating,
           personMovieCount := setForEach g.directorLabel cntVal g.personMovieCount }

/-- The match rows of `MATCH (a:Actor)-[:ACTED_IN]->(m:Movie)`. -/
def actedMoviesOf (g : Graph) (p : String) : List MovieNode :=
  (g.acted.filter (fun e => e.1 == p)).flatMap
    (fun e => g.movies.filter (fun m => m.id == e.2))

/-- Second pass of STEP 7: per `Actor`, overwrite `movieCount`.  It writes
the same `movieCount` property the director pass wrote, so for a Person
holding both labels this pass wins. -/
def actorStats (g : Graph) : Graph :=
  let cntVal := fun p =>
    let ms := actedMoviesOf g p
    if ms.isEmpty then none else some ms.length
  { g with personMovieCount := setForEach g.actorLabel cntVal g.personMovieCount }

/-- The match rows of `MATCH (m:Movie)-[:HAS_TAG]->(t:Tag)` for one tag:
the `HAS_TAG` edges into that tag whose source `Movie` exists. -/
def hasTagRowsOf (g : Graph) (t : String) : List HasTagEdge :=
  g.hasTag.filter (fun e => e.tag == t && movieExists g e.movie)

/-- Third pass of STEP 7: per `Tag` with at least one matched row,
overwrite `usageCount` with `count(m)` — the number of `HAS_TAG` edges
into the tag, not the number of raw tag applications. -/
def tagUsagePass (g : Graph) : Graph :=
  let cntVal := fun t =>
    let es := hasTagRowsOf g t
    if es.isEmpty then none else some es.length
  { g with tagUsageCount := setForEach g.tags cntVal g.tagUsageCount }

/-- STEP 3 through STEP 7, applied in script order after the movie load. -/
def pipelineAfterMovies (g : Graph) (ratingRows : List RatingRow)
    (tagRows : List TagRow) : Graph :=
  tagUsagePass (actorStats (directorStats (user_enrichment
    (deleteTagged (tag_normalization (loadTags (loadRatings
      (addDirectorLabels (addActorLabels g)) ratingRows) tagRows))))))

/-- The whole construction pipeline (STEP 2 through STEP 7) from the empty
graph, aborting if the movie query fails. -/
def runPipeline (movieRows : List MovieRow) (ratingRows : List RatingRow)
    (tagRows : List TagRow) : Except String Graph :=
  match loadMovies emptyGraph movieRows with
  | .error e => .error e
  | .ok g => .ok (pipelineAfterMovies g ratingRows tagRows)

/-! ### STEP 9: the recommendation query -/

/-- Insert into a sorted list, keeping the `le`-smaller element first. -/
def insertSorted {α : Type} (le : α → α → Bool) (x : α) : List α → List α
  | [] => [x]
  | y :: ys => if le x y then x :: y :: ys else y :: insertSorted le x ys

/-- Insertion sort, modelling Cypher `ORDER BY` (tie order is not
guaranteed by the store; this is one deterministic realization). -/
def insertionSort {α : Type} (le : α → α → Bool) : List α → List α
  | [] => []
  | x :: xs => insertSorted le x (insertionSort le xs)

/-- `r.rating > c` in Cypher: comparison with `null` is `null`, which a
`WHERE` clause treats as not passing. -/
def ratingAbove (r : Option ℚ) (c : ℚ) : Bool :=
  match r with
  | none => false
  | some q => q > c

/-- Match rows of `MATCH (u:User {userId: uid})-[r:RATED]->(m:Movie) WHERE
r.rating > 4.0`: one row per qualifying `RATED` edge (no deduplication). -/
def likedRows (g : Graph) (uid : String) : List RatedEdge :=
  g.rated.filter (fun r =>
    g.users.contains uid && r.user == uid && movieExists g r.movie &&
      ratingAbove r.rating 4)

/-- Rows after `MATCH (m)-[:IN_GENRE]->(g:Genre)`: each liked row fans out
to the genres of its movie, keeping multiplicity. -/
def genreRowsOf (g : Graph) (uid : String) : List String :=
  (likedRows g uid).flatMap (fun r =>
    ((g.inGenre.filter (fun e => e.1 == r.movie && g.genres.contains e.2)).map
      (fun e => e.2)))

/-- `WITH u, g, count(*) AS genreStrength`: distinct genres (in
first-occurrence order) with the count of rows naming them. -/
def genreStrengths (g : Graph) (uid : String) : List (String × Nat) :=
  let rows := genreRowsOf g uid
  (rows.foldl (fun acc x => addIfAbsent x acc) []).map
    (fun gn => (gn, (rows.filter (fun x => x == gn)).length))

/-- `ORDER BY genreStrength DESC LIMIT 3`. -/
def topGenres (g : Graph) (uid : String) : List String :=
  ((insertionSort (fun a b => decide (b.2 ≤ a.2)) (genreStrengths g uid)).take 3).map
    (fun p => p.1)

/-- Does the user have any `RATED` edge to this movie id? -/
def ratedByUser (g : Graph) (uid mid : String) : Bool :=
  g.rated.any (fun r => r.user == uid && r.movie == mid)

/-- Rows after `MATCH (g)<-[:IN_GENRE]-(rec:Movie) WHERE NOT
EXISTS((u)-[:RATED]->(rec)) AND rec.imdbRating > 7.0`: one row per
(top genre, movie) incidence passing both filters.  A passing movie has a
non-`null` rating, carried alongside. -/
def candidateRows (g : Graph) (uid : String) : List (String × MovieNode × ℚ) :=
  (topGenres g uid).flatMap (fun gn =>
    (g.inGenre.filter (fun e => e.2 == gn)).flatMap (fun e =>
      (g.movies.filter (fun m => m.id == e.1)).filterMap (fun m =>
        match m.imdbRating with
        | none => none
        | some q =>
          if ratedByUser g uid m.id then none
          else if q > 7 then some (gn, m, q) else none)))

/-- One returned row of the recommendation query. -/
structure RecRow where
  title : String
  imdbRating : ℚ
  genres : List String
deriving DecidableEq, Repr

/-- The `test_query` of STEP 9, parametrized by the user id (the script
runs it with `userId = "1"`): `RETURN rec.title, rec.imdbRating,
collect(g.name)` groups the candidate rows by `(title, imdbRating)` and
collects the matched top genres, then `ORDER BY rec.imdbRating DESC
LIMIT 5`. -/
def test_query (g : Graph) (uid : String) : List RecRow :=
  let cand := candidateRows g uid
  let keys := cand.foldl (fun acc c => addIfAbsent (c.2.1.title, c.2.2) acc) []
  let rows := keys.map (fun k =>
    { title := k.1, imdbRating := k.2,
      genres := (cand.filter (fun c => c.2.1.title == k.1 && c.2.2 == k.2)).map
        (fun c => c.1) : RecRow })
  (insertionSort (fun a b => decide (b.imdbRating ≤ a.imdbRating)) rows).take 5

/-- The full genre set of a movie id in the graph (used to compare the
query's reported genre list against the movie's actual genres). -/
def genresOfMovie (g : Graph) (mid : String) : List String :=
  (g.inGenre.filter (fun e => e.1 == mid)).map (fun e => e.2)

/-! ### Helper lemmas -/

theorem mem_addIfAbsent {α : Type} [DecidableEq α] (x y : α) (l : List α) :
    y ∈ addIfAbsent x l ↔ y ∈ l ∨ y = x := by
  unfold addIfAbsent
  split
  · rename_i h
    constructor
    · exact fun hy => Or.inl hy
    · rintro (hy | rfl) <;> [exact hy; exact h]
  · simp [List.mem_append]

theorem subset_addIfAbsent {α : Type} [DecidableEq α] (x : α) (l : List α) :
    l ⊆ addIfAbsent x l := by
  intro y hy
  exact (mem_addIfAbsent x y l).mpr (Or.inl hy)

theorem self_mem_addIfAbsent {α : Type} [DecidableEq α] (x : α) (l : List α) :
    x ∈ addIfAbsent x l := by
  exact (mem_addIfAbsent x x l).mpr (Or.inr rfl)

theorem nodup_addIfAbsent {α : Type} [DecidableEq α] (x : α) (l : List α)
    (h : l.Nodup) : (addIfAbsent x l).Nodup := by
  unfold addIfAbsent
  split
  · exact h
  · rename_i hx
    simpa [List.nodup_append] using ⟨h, fun hmem => hx hmem⟩

theorem lookupA_updateAssoc_self {κ β : Type} [DecidableEq κ]
    (l : List (κ × β)) (k : κ) (v : β) :
    lookupA (updateAssoc l k v) k = some v := by
  induction l with
  | nil => simp [updateAssoc, lookupA]
  | cons p rest ih =>
    obtain ⟨k', v'⟩ := p
    by_cases h : k' = k
    · simp [updateAssoc, h, lookupA]
    · simp [updateAssoc, h, lookupA, ih]

theorem lookupA_updateAssoc_ne {κ β : Type} [DecidableEq κ]
    (l : List (κ × β)) (k' k : κ) (v : β) (h : k' ≠ k) :
    lookupA (updateAssoc l k' v) k = lookupA l k := by
  induction l with
  | nil => simp [updateAssoc, lookupA, h]
  | cons p rest ih =>
    obtain ⟨k'', v''⟩ := p
    by_cases h2 : k'' = k'
    · subst h2
      simp [updateAssoc, lookupA, h]
    · simp [updateAssoc, h2, lookupA, ih]

theorem lookupA_setForEach_mem {κ β : Type} [DecidableEq κ]
    (keys : List κ) (val : κ → Option β) (store : List (κ × β)) (k : κ) (v : β)
    (hv : val k = some v) (hk : k ∈ keys ∨ lookupA store k = some v) :
    lookupA (setForEach keys val store) k = some v := by
  induction keys generalizing store with
  | nil =>
    rcases hk with h | h
    · cases h
    · simpa [setForEach] using h
  | cons k' rest ih =>
    simp only [setForEach, List.foldl_cons] at *
    rcases hk with h | h
    · rcases List.mem_cons.mp h with rfl | h2
      · rw [hv]
        by_cases hmem : k ∈ rest
        · exact ih _ (Or.inl hmem)
        · exact ih _ (Or.inr (lookupA_updateAssoc_self store k v))
      · cases hval : val k' <;> exact ih _ (Or.inl h2)
    · cases hval : val k' with
      | none => exact ih _ (Or.inr h)
      | some v' =>
        by_cases hkk : k' = k
        · subst hkk
          rw [hval] at hv
          injection hv with hv2
          subst hv2
          exact ih _ (Or.inr (lookupA_updateAssoc_self store k' v'))
        · refine ih _ (Or.inr ?_)
          rw [lookupA_updateAssoc_ne store k' k v' hkk]
          exact h

theorem lookupA_setForEach_none {κ β : Type} [DecidableEq κ]
    (keys : List κ) (val : κ → Option β) (store : List (κ × β)) (k : κ)
    (hv : val k = none) :
    lookupA (setForEach keys val store) k = lookupA store k := by
  induction keys generalizing store with
  | nil => simp [setForEach]
  | cons k' rest ih =>
    simp only [setForEach, List.foldl_cons] at *
    cases hval : val k' with
    | none => exact ih store
    | some v' =>
      have hkk : k' ≠ k := by
        intro h
        subst h
        rw [hval] at hv
        cases hv
      rw [ih (updateAssoc store k' v'), lookupA_updateAssoc_ne store k' k v' hkk]

theorem foldl_rel {α β : Type} (R : β → β → Prop) (f : β → α → β)
    (hrefl : ∀ b, R b b) (htrans : ∀ a b c, R a b → R b c → R a c)
    (h : ∀ b a, R b (f b a)) :
    ∀ (l : List α) (b : β), R b (l.foldl f b) := by
  intro l
  induction l with
  | nil => intro b; exact hrefl b
  | cons a rest ih =>
    intro b
    exact htrans _ _ _ (h b a) (ih (f b a))

theorem foldl_invariant {α β : Type} (P : β → Prop) (f : β → α → β) :
    ∀ (l : List α) (b : β), P b → (∀ b' a, a ∈ l → P b' → P (f b' a)) →
      P (l.foldl f b) := by
  intro l
  induction l with
  | nil => intro b hb _; exact hb
  | cons a rest ih =>
    intro b hb hstep
    exact ih (f b a) (hstep b a (List.mem_cons_self a rest) hb)
      (fun b' x hx => hstep b' x (List.mem_cons_of_mem a hx))

theorem foldlM_except_rel {α β : Type} (R : β → β → Prop) (f : β → α → Except String β)
    (hrefl : ∀ b, R b b) (htrans : ∀ a b c, R a b → R b c → R a c)
    (h : ∀ b a b', f b a = .ok b' → R b b') :
    ∀ (l : List α) (b b' : β), l.foldlM f b = .ok b' → R b b' := by
  intro l
  induction l with
  | nil =>
    intro b b' hb
    simp only [List.foldlM_nil] at hb
    cases hb
    exact hrefl b
  | cons a rest ih =>
    intro b b' hb
    simp only [List.foldlM_cons] at hb
    cases hfa : f b a with
    | error e =>
      rw [hfa] at hb
      exact Except.noConfusion hb
    | ok b'' =>
      rw [hfa] at hb
      replace hb : rest.foldlM f b'' = .ok b' := hb
      exact htrans _ _ _ (h b a b'' hfa) (ih b'' b' hb)

theorem mem_foldl_addIfAbsent {α β : Type} [DecidableEq β] (f : α → β) :
    ∀ (l : List α) (init : List β) (x : β),
      x ∈ l.foldl (fun acc e => addIfAbsent (f e) acc) init →
        x ∈ init ∨ ∃ e ∈ l, f e = x := by
  intro l
  induction l with
  | nil => intro init x hx; exact Or.inl hx
  | cons a rest ih =>
    intro init x hx
    rcases ih (addIfAbsent (f a) init) x hx with h | h
    · rcases (mem_addIfAbsent (f a) x init).mp h with h2 | h2
      · exact Or.inl h2
      · exact Or.inr ⟨a, List.mem_cons_self a rest, h2.symm⟩
    · rcases h with ⟨e, he, hfe⟩
      exact Or.inr ⟨e, List.mem_cons_of_mem a he, hfe⟩

theorem not_mem_filter_ne_self (l : List String) (x : String) :
    x ∉ l.filter (fun c => c ≠ x) := by
  intro hx
  have := List.of_mem_filter hx
  simp at this

theorem not_mem_filter_of_not_mem {l : List String} {x : String}
    (p : String → Bool) (h : x ∉ l) : x ∉ l.filter p :=
  fun hm => h (List.mem_of_mem_filter hm)

/-! ### C4: the schema manager -/

/-- C4 counterexample: starting from a store that has all five uniqueness
constraints, the schema step leaves only the `User` constraint — the four
other entity-key constraints are dropped and never recreated, contrary to
the claim that one constraint per entity key is recreated. -/
theorem ensureSchema_counterexample :
    (ensureSchema ⟨["unique_user_id", "unique_movie_id", "unique_person_name",
        "unique_tag_name", "unique_genre_name"],
      ["movie_id_index", "user_id_index", "person_name_index",
        "tag_name_index", "genre_name_index"]⟩).constraints
        = ["unique_user_id"] ∧
    "unique_movie_id" ∉
      (ensureSchema ⟨["unique_user_id", "unique_movie_id", "unique_person_name",
          "unique_tag_name", "unique_genre_name"],
        ["movie_id_index", "user_id_index", "person_name_index",
          "tag_name_index", "genre_name_index"]⟩).constraints := by
  constructor
  · rfl
  · decide

theorem createConstraint_not_mem (s : SchemaState) (n : String)
    (h : n ∉ s.constraints) :
    createConstraintIfNotExists s n = ⟨s.constraints ++ [n], s.indexes⟩ := by
  simp [createConstraintIfNotExists, h]

theorem createIndex_not_mem (s : SchemaState) (n : String)
    (h : n ∉ s.indexes) :
    createIndexIfNotExists s n = ⟨s.constraints, s.indexes ++ [n]⟩ := by
  simp [createIndexIfNotExists, h]

/-- The constraint list after the five `DROP CONSTRAINT … IF EXISTS`. -/
def droppedConstraints (s : SchemaState) : List String :=
  ((((s.constraints.filter (fun c => c ≠ "unique_user_id")).filter
      (fun c => c ≠ "unique_movie_id")).filter
      (fun c => c ≠ "unique_person_name")).filter
      (fun c => c ≠ "unique_tag_name")).filter
      (fun c => c ≠ "unique_genre_name")

/-- The index list after the five `DROP INDEX … IF EXISTS`. -/
def droppedIndexes (s : SchemaState) : List String :=
  ((((s.indexes.filter (fun c => c ≠ "movie_id_index")).filter
      (fun c => c ≠ "user_id_index")).filter
      (fun c => c ≠ "person_name_index")).filter
      (fun c => c ≠ "tag_name_index")).filter
      (fun c => c ≠ "genre_name_index")

theorem ensureSchema_eq (s : SchemaState) :
    ensureSchema s =
      ⟨droppedConstraints s ++ ["unique_user_id"],
       droppedIndexes s ++ ["movie_id_index", "person_name_index",
         "tag_name_index"]⟩ := by
  have hc : "unique_user_id" ∉ droppedConstraints s := by
    unfold droppedConstraints
    exact not_mem_filter_of_not_mem _ (not_mem_filter_of_not_mem _
      (not_mem_filter_of_not_mem _ (not_mem_filter_of_not_mem _
        (not_mem_filter_ne_self _ _))))
  have hi1 : "movie_id_index" ∉ droppedIndexes s := by
    unfold droppedIndexes
    exact not_mem_filter_of_not_mem _ (not_mem_filter_of_not_mem _
      (not_mem_filter_of_not_mem _ (not_mem_filter_of_not_mem _
        (not_mem_filter_ne_self _ _))))
  have hi2 : "person_name_index" ∉ droppedIndexes s ++ ["movie_id_index"] := by
    intro h
    rcases List.mem_append.mp h with h | h
    · unfold droppedIndexes at h
      exact absurd (List.of_mem_filter (List.mem_of_mem_filter
        (List.mem_of_mem_filter h))) (by decide)
    · simp at h
  have hi3 : "tag_name_index" ∉
      droppedIndexes s ++ ["movie_id_index", "person_name_index"] := by
    intro h
    rcases List.mem_append.mp h with h | h
    · unfold droppedIndexes at h
      exact absurd (List.of_mem_filter (List.mem_of_mem_filter h)) (by decide)
    · simp at h
  calc ensureSchema s
      = createIndexIfNotExists (createIndexIfNotExists (createIndexIfNotExists
          (createConstraintIfNotExists ⟨droppedConstraints s, droppedIndexes s⟩
            "unique_user_id") "movie_id_index") "person_name_index")
          "tag_name_index" := rfl
    _ = createIndexIfNotExists (createIndexIfNotExists (createIndexIfNotExists
          (⟨droppedConstraints s ++ ["unique_user_id"], droppedIndexes s⟩ :
            SchemaState) "movie_id_index") "person_name_index")
          "tag_name_index" := by
          rw [createConstraint_not_mem _ _ hc]
    _ = createIndexIfNotExists (createIndexIfNotExists
          (⟨droppedConstraints s ++ ["unique_user_id"],
            droppedIndexes s ++ ["movie_id_index"]⟩ :
            SchemaState) "person_name_index") "tag_name_index" := by
          rw [createIndex_not_mem
            ⟨droppedConstraints s ++ ["unique_user_id"], droppedIndexes s⟩
            "movie_id_index" hi1]
    _ = createIndexIfNotExists
          (⟨droppedConstraints s ++ ["unique_user_id"],
            droppedIndexes s ++ ["movie_id_index", "person_name_index"]⟩ :
            SchemaState) "tag_name_index" := by
          rw [createIndex_not_mem
            ⟨droppedConstraints s ++ ["unique_user_id"],
              droppedIndexes s ++ ["movie_id_index"]⟩
            "person_name_index" hi2]
          simp
    _ = ⟨droppedConstraints s ++ ["unique_user_id"],
          droppedIndexes s ++ ["movie_id_index", "person_name_index",
            "tag_name_index"]⟩ := by
          rw [createIndex_not_mem
            ⟨droppedConstraints s ++ ["unique_user_id"],
              droppedIndexes s ++ ["movie_id_index", "person_name_index"]⟩
            "tag_name_index" hi3]
          simp

/-- C4 (amended): from any starting schema state, the schema step runs
without error (all drops use `IF EXISTS`, all creations `IF NOT EXISTS`,
and the step is a total function of the state), drops all five uniqueness
constraints and all five lookup indexes, but recreates only the `User`
uniqueness constraint and the `Movie.id`, `Person.name` and `Tag.name`
indexes; the constraints for `Movie`, `Person`, `Tag` and `Genre` and the
`User`/`Genre` indexes are absent afterwards. -/
theorem ensureSchema_spec : ∀ s : SchemaState,
    "unique_user_id" ∈ (ensureSchema s).constraints ∧
    "unique_movie_id" ∉ (ensureSchema s).constraints ∧
    "unique_person_name" ∉ (ensureSchema s).constraints ∧
    "unique_tag_name" ∉ (ensureSchema s).constraints ∧
    "unique_genre_name" ∉ (ensureSchema s).constraints ∧
    "movie_id_index" ∈ (ensureSchema s).indexes ∧
    "person_name_index" ∈ (ensureSchema s).indexes ∧
    "tag_name_index" ∈ (ensureSchema s).indexes ∧
    "user_id_index" ∉ (ensureSchema s).indexes ∧
    "genre_name_index" ∉ (ensureSchema s).indexes := by
  intro s
  rw [ensureSchema_eq s]
  refine ⟨?_, ?_, ?_, ?_, ?_, ?_, ?_, ?_, ?_, ?_⟩
  · simp
  · intro h
    rcases List.mem_append.mp h with h | h
    · unfold droppedConstraints at h
      exact absurd (List.of_mem_filter (List.mem_of_mem_filter
        (List.mem_of_mem_filter (List.mem_of_mem_filter h)))) (by decide)
    · simp at h
  · intro h
    rcases List.mem_append.mp h with h | h
    · unfold droppedConstraints at h
      exact absurd (List.of_mem_filter (List.mem_of_mem_filter
        (List.mem_of_mem_filter h))) (by decide)
    · simp at h
  · intro h
    rcases List.mem_append.mp h with h | h
    · unfold droppedConstraints at h
      exact absurd (List.of_mem_filter (List.mem_of_mem_filter h)) (by decide)
    · simp at h
  · intro h
    rcases List.mem_append.mp h with h | h
    · unfold droppedConstraints at h
      exact absurd (List.of_mem_filter h) (by decide)
    · simp at h
  · simp
  · simp
  · simp
  · intro h
    rcases List.mem_append.mp h with h | h
    · unfold droppedIndexes at h
      exact absurd (List.of_mem_filter (List.mem_of_mem_filter
        (List.mem_of_mem_filter (List.mem_of_mem_filter h)))) (by decide)
    · simp at h
  · intro h
    rcases List.mem_append.mp h with h | h
    · unfold droppedIndexes at h
      exact absurd (List.of_mem_filter h) (by decide)
    · simp at h

/-- C4 witness: the amended schema theorem applied to the empty schema
state. -/
theorem ensureSchema_spec_witness :
    "unique_user_id" ∈ (ensureSchema ⟨[], []⟩).constraints ∧
    "unique_movie_id" ∉ (ensureSchema ⟨[], []⟩).constraints ∧
    "movie_id_index" ∈ (ensureSchema ⟨[], []⟩).indexes :=
  ⟨(ensureSchema_spec ⟨[], []⟩).1, (ensureSchema_spec ⟨[], []⟩).2.1,
   (ensureSchema_spec ⟨[], []⟩).2.2.2.2.2.1⟩

/-! ### C5 / C10: the rating-row referential guard -/

/-- C5: a rating row whose `movieId` matches no `Movie` node creates no
`RATED` edge — the `MATCH` clause yields no rows, which is not an error
(the loader is a total function here, since nothing in the query can fail
on such a row) — and the loader then continues with the remaining rows of
the batch. -/
theorem rating_row_referential_guard :
    ∀ (g : Graph) (row : RatingRow) (rest : List RatingRow),
      movieExists g row.movieId = false →
        (processRatingRow g row).rated = g.rated ∧
        loadRatings g (row :: rest) = loadRatings (processRatingRow g row) rest := by
  intro g row rest h
  have h' : movieExists { g with users := addIfAbsent row.userId g.users }
      row.movieId = false := h
  constructor
  · simp [processRatingRow, h']
  · rfl

/-- The graph with one movie `"1"` used by the guard witnesses. -/
def gOneMovie : Graph :=
  { emptyGraph with movies := [⟨"1", "T", "", ⟨1999, 1, 1⟩, some 8, 1999⟩] }

/-- A rating row naming the unknown movie `"999"`. -/
def rowUnknown : RatingRow := ⟨"1", "999", "4.5", "100"⟩

/-- C5 witness: the guard theorem applied to the movie feed containing
only movie `"1"` and a rating row naming movie `"999"`. -/
theorem rating_row_referential_guard_witness :
    movieExists gOneMovie rowUnknown.movieId = false ∧
    (processRatingRow gOneMovie rowUnknown).rated = gOneMovie.rated ∧
    loadRatings gOneMovie (rowUnknown :: [⟨"2", "1", "3.0", "5"⟩]) =
      loadRatings (processRatingRow gOneMovie rowUnknown) [⟨"2", "1", "3.0", "5"⟩] :=
  ⟨by decide,
   (rating_row_referential_guard gOneMovie rowUnknown [⟨"2", "1", "3.0", "5"⟩]
     (by decide)).1,
   (rating_row_referential_guard gOneMovie rowUnknown [⟨"2", "1", "3.0", "5"⟩]
     (by decide)).2⟩

/-- C10: in both the ratings query and the raw-tags query the `MERGE` of
the `User` node precedes the `Movie` lookup, so a row naming an unknown
movie still upserts its `User` node even though the edge is dropped — the
skip is not atomic over the whole row. -/
theorem processRatingRow_eq_of_guard (g : Graph) (row : RatingRow)
    (h : movieExists g row.movieId = false) :
    processRatingRow g row = { g with users := addIfAbsent row.userId g.users } := by
  have h' : movieExists { g with users := addIfAbsent row.userId g.users }
      row.movieId = false := h
  simp [processRatingRow, h']

theorem processTagRow_eq_of_guard (g : Graph) (row : TagRow)
    (h : movieExists g row.movieId = false) :
    processTagRow g row = { g with users := addIfAbsent row.userId g.users } := by
  have h' : movieExists { g with users := addIfAbsent row.userId g.users }
      row.movieId = false := h
  simp [processTagRow, h']

theorem user_upsert_before_guard :
    ∀ (g : Graph) (rrow : RatingRow) (trow : TagRow),
      (movieExists g rrow.movieId = false →
        (processRatingRow g rrow).users = addIfAbsent rrow.userId g.users ∧
        rrow.userId ∈ (processRatingRow g rrow).users ∧
        (processRatingRow g rrow).rated = g.rated) ∧
      (movieExists g trow.movieId = false →
        (processTagRow g trow).users = addIfAbsent trow.userId g.users ∧
        trow.userId ∈ (processTagRow g trow).users ∧
        (processTagRow g trow).tagged = g.tagged) := by
  intro g rrow trow
  constructor
  · intro h
    rw [processRatingRow_eq_of_guard g rrow h]
    exact ⟨rfl, self_mem_addIfAbsent _ _, rfl⟩
  · intro h
    rw [processTagRow_eq_of_guard g trow h]
    exact ⟨rfl, self_mem_addIfAbsent _ _, rfl⟩

/-- A tag row naming the unknown movie `"999"`. -/
def tagRowUnknown : TagRow := ⟨"7", "999", "great", "100"⟩

/-- C10 witness: the non-atomic-skip theorem applied to concrete rating
and tag rows naming an unknown movie; both users appear afterwards. -/
theorem user_upsert_before_guard_witness :
    movieExists gOneMovie rowUnknown.movieId = false ∧
    movieExists gOneMovie tagRowUnknown.movieId = false ∧
    rowUnknown.userId ∈ (processRatingRow gOneMovie rowUnknown).users ∧
    (processRatingRow gOneMovie rowUnknown).rated = gOneMovie.rated ∧
    tagRowUnknown.userId ∈ (processTagRow gOneMovie tagRowUnknown).users ∧
    (processTagRow gOneMovie tagRowUnknown).tagged = gOneMovie.tagged :=
  ⟨by decide, by decide,
   ((user_upsert_before_guard gOneMovie rowUnknown tagRowUnknown).1
     (by decide)).2.1,
   ((user_upsert_before_guard gOneMovie rowUnknown tagRowUnknown).1
     (by decide)).2.2,
   ((user_upsert_before_guard gOneMovie rowUnknown tagRowUnknown).2
     (by decide)).2.1,
   ((user_upsert_before_guard gOneMovie rowUnknown tagRowUnknown).2
     (by decide)).2.2⟩

/-! ### C1: re-running the rating loader duplicates RATED edges -/

/-- The number of rows of the feed whose `movieId` resolves in `g`. -/
def validRatingCount (g : Graph) (rows : List RatingRow) : Nat :=
  (rows.filter (fun r => movieExists g r.movieId)).length

theorem processRatingRow_movies (g : Graph) (row : RatingRow) :
    (processRatingRow g row).movies = g.movies := by
  simp only [processRatingRow]
  split <;> rfl

theorem loadRatings_movies (g : Graph) (rows : List RatingRow) :
    (loadRatings g rows).movies = g.movies :=
  foldl_rel (fun a b => b.movies = a.movies) processRatingRow
    (fun b => (rfl : b.movies = b.movies))
    (fun a b c (h1 : b.movies = a.movies) (h2 : c.movies = b.movies) =>
      (h2.trans h1 : c.movies = a.movies))
    (fun b a => processRatingRow_movies b a) rows g

theorem validRatingCount_congr (g g' : Graph) (rows : List RatingRow)
    (h : g'.movies = g.movies) :
    validRatingCount g' rows = validRatingCount g rows := by
  unfold validRatingCount movieExists
  rw [h]

theorem validRatingCount_cons_true (g : Graph) (row : RatingRow)
    (rest : List RatingRow) (h : movieExists g row.movieId = true) :
    validRatingCount g (row :: rest) = validRatingCount g rest + 1 := by
  simp [validRatingCount, List.filter_cons, h]

theorem validRatingCount_cons_false (g : Graph) (row : RatingRow)
    (rest : List RatingRow) (h : movieExists g row.movieId = false) :
    validRatingCount g (row :: rest) = validRatingCount g rest := by
  simp [validRatingCount, List.filter_cons, h]

theorem loadRatings_rated_length :
    ∀ (rows : List RatingRow) (g : Graph),
      (loadRatings g rows).rated.length = g.rated.length + validRatingCount g rows := by
  intro rows
  induction rows with
  | nil => intro g; simp [loadRatings, validRatingCount]
  | cons row rest ih =>
    intro g
    have hmv : (processRatingRow g row).movies = g.movies :=
      processRatingRow_movies g row
    have hstep : loadRatings g (row :: rest) =
        loadRatings (processRatingRow g row) rest := rfl
    rw [hstep, ih (processRatingRow g row),
      validRatingCount_congr g (processRatingRow g row) rest hmv]
    by_cases h : movieExists g row.movieId
    · have h' : movieExists { g with users := addIfAbsent row.userId g.users }
          row.movieId = true := h
      have hlen : (processRatingRow g row).rated.length = g.rated.length + 1 := by
        simp [processRatingRow, h']
      rw [hlen, validRatingCount_cons_true g row rest h]
      omega
    · simp only [Bool.not_eq_true] at h
      rw [processRatingRow_eq_of_guard g row h,
        validRatingCount_cons_false g row rest h]

/-- C1 (amended): the ratings query creates `RATED` edges with `CREATE`,
not `MERGE`, so each run appends one fresh edge per row whose movie
resolves; re-running the loader on the same input therefore doubles the
number of `RATED` edges added (rather than leaving the edge set fixed),
while the `Movie` node set is untouched by the loader. -/
theorem rating_loader_not_idempotent :
    ∀ (g : Graph) (rows : List RatingRow),
      (loadRatings g rows).movies = g.movies ∧
      (loadRatings g rows).rated.length = g.rated.length + validRatingCount g rows ∧
      (loadRatings (loadRatings g rows) rows).rated.length =
        g.rated.length + 2 * validRatingCount g rows := by
  intro g rows
  refine ⟨loadRatings_movies g rows, loadRatings_rated_length rows g, ?_⟩
  rw [loadRatings_rated_length rows (loadRatings g rows),
    loadRatings_rated_length rows g,
    validRatingCount_congr g (loadRatings g rows) rows (loadRatings_movies g rows)]
  omega

/-- C1 counterexample: loading the single valid rating row `("1", "1")`
twice yields two parallel `RATED` edges between user `"1"` and movie
`"1"`, contradicting "at most one RATED edge per (user, movie) pair"
under a re-run, and the second run changes the edge count. -/
theorem rated_duplication_counterexample :
    ((loadRatings (loadRatings gOneMovie [⟨"1", "1", "4.5", "100"⟩])
        [⟨"1", "1", "4.5", "100"⟩]).rated.filter
      (fun r => r.user == "1" && r.movie == "1")).length = 2 ∧
    ¬ (2 ≤ 1) := by
  constructor
  · decide
  · decide

/-! ### C8: the movie loader on malformed scalar fields -/

theorem mem_upsertMovie (g : Graph) (m : MovieNode) :
    m ∈ (upsertMovie g m).movies := by
  unfold upsertMovie
  split
  · rename_i h
    rw [List.any_eq_true] at h
    obtain ⟨old, hold, holdid⟩ := h
    show m ∈ g.movies.map (fun old => if old.id = m.id then m else old)
    rw [List.mem_map]
    refine ⟨old, hold, ?_⟩
    rw [if_pos (by simpa using holdid)]
  · show m ∈ g.movies ++ [m]
    simp

theorem foldl_movies_const {α : Type} (f : Graph → α → Graph)
    (h : ∀ g a, (f g a).movies = g.movies) (l : List α) (g : Graph) :
    (l.foldl f g).movies = g.movies :=
  foldl_rel (fun a b => b.movies = a.movies) f
    (fun b => (rfl : b.movies = b.movies))
    (fun a b c (h1 : b.movies = a.movies) (h2 : c.movies = b.movies) =>
      (h2.trans h1 : c.movies = a.movies)) h l g

theorem addDirectorsFold_movies (mid : String) (g : Graph) (l : List String) :
    (addDirectorsFold mid g l).movies = g.movies := by
  unfold addDirectorsFold
  apply foldl_movies_const
  intro g a
  rfl

theorem addActorsFold_movies (mid : String) (g : Graph) (l : List String) :
    (addActorsFold mid g l).movies = g.movies := by
  unfold addActorsFold
  apply foldl_movies_const
  intro g a
  rfl

theorem addGenresFold_movies (mid : String) (g : Graph) (l : List String) :
    (addGenresFold mid g l).movies = g.movies := by
  unfold addGenresFold
  apply foldl_movies_const
  intro g a
  rfl

theorem movieRowEffect_movies (g : Graph) (row : MovieRow) (d : SimpleDate) :
    (movieRowEffect g row d).movies =
      (upsertMovie g
        { id := row.movieId, title := row.title, tagline := row.tagline,
          released := d, imdbRating := toFloat row.imdbRating,
          releaseYear := d.year }).movies := by
  unfold movieRowEffect
  rw [addGenresFold_movies, addActorsFold_movies, addDirectorsFold_movies]

/-- C8 (amended): per movie record, a malformed release date makes
`date(row.released)` raise, failing that record and aborting the whole
movies query (not configurable, not skip-and-continue); a non-numeric
`imdbRating` raises no error at all — `toFloat` yields `null` and the
`Movie` node is stored with a `null` rating. -/
theorem movie_loader_parse_behavior :
    ∀ (g : Graph) (row : MovieRow) (rows : List MovieRow),
      (parseDate row.released = none →
        processMovieRow g row = .error "date parse failure" ∧
        (row ∈ rows → ∀ g', loadMovies g rows ≠ .ok g')) ∧
      (∀ d, parseDate row.released = some d →
        processMovieRow g row = .ok (movieRowEffect g row d) ∧
        ∃ mv ∈ (movieRowEffect g row d).movies,
          mv.id = row.movieId ∧ mv.imdbRating = toFloat row.imdbRating) := by
  have habort : ∀ (rows : List MovieRow) (g : Graph),
      (∃ r ∈ rows, parseDate r.released = none) →
        ∀ g', loadMovies g rows ≠ .ok g' := by
    intro rows
    induction rows with
    | nil =>
      intro g hex g' hok
      rcases hex with ⟨r, hr, _⟩
      cases hr
    | cons a rest ih =>
      intro g hex g' hok
      rcases hex with ⟨r, hr, hpr⟩
      rw [List.mem_cons] at hr
      simp only [loadMovies, List.foldlM_cons] at hok
      cases hpa : processMovieRow g a with
      | error e =>
        rw [hpa] at hok
        exact Except.noConfusion hok
      | ok g2 =>
        rw [hpa] at hok
        replace hok : rest.foldlM processMovieRow g2 = .ok g' := hok
        rcases hr with rfl | hr
        · rw [processMovieRow, hpr] at hpa
          exact Except.noConfusion hpa
        · exact ih g2 ⟨r, hr, hpr⟩ g' hok
  intro g row rows
  constructor
  · intro h
    refine ⟨by simp [processMovieRow, h], fun hmem g' => ?_⟩
    exact habort rows g ⟨row, hmem, h⟩ g'
  · intro d h
    refine ⟨by simp [processMovieRow, h], ?_⟩
    refine ⟨⟨row.movieId, row.title, row.tagline, d, toFloat row.imdbRating,
      d.year⟩, ?_, rfl, rfl⟩
    rw [movieRowEffect_movies g row d]
    exact mem_upsertMovie g _

/-- A movies row with a well-formed date but a non-numeric rating. -/
def movieRowNA : MovieRow := ⟨"1", "T", "tl", "1999-03-31", "n/a", "A", "C", "D"⟩

/-- A movies row with a malformed date. -/
def movieRowBadDate : MovieRow := ⟨"2", "U", "", "bad-date", "8.0", "A", "C", "D"⟩

/-- C8 counterexample: a record whose `imdbRating` is the non-numeric
string `"n/a"` is processed without any error — no `ParseError` exists in
the script and no skip-or-abort configuration option exists — and the
`Movie` node is stored with a `null` rating. -/
theorem movie_loader_no_parse_error :
    processMovieRow emptyGraph movieRowNA =
      .ok (movieRowEffect emptyGraph movieRowNA ⟨1999, 3, 31⟩) ∧
    (movieRowEffect emptyGraph movieRowNA ⟨1999, 3, 31⟩).movies.map
      (fun m => m.imdbRating) = [none] := by
  constructor
  · rfl
  · rfl

/-- C8 witness: the amended parse-behavior theorem on a malformed-date row
and on the non-numeric-rating row. -/
theorem movie_loader_parse_behavior_witness :
    parseDate "bad-date" = none ∧
    processMovieRow emptyGraph movieRowBadDate = .error "date parse failure" ∧
    loadMovies emptyGraph [movieRowBadDate] ≠ .ok emptyGraph ∧
    parseDate "1999-03-31" = some ⟨1999, 3, 31⟩ ∧
    processMovieRow emptyGraph movieRowNA =
      .ok (movieRowEffect emptyGraph movieRowNA ⟨1999, 3, 31⟩) :=
  ⟨rfl,
   ((movie_loader_parse_behavior emptyGraph movieRowBadDate [movieRowBadDate]).1
     rfl).1,
   ((movie_loader_parse_behavior emptyGraph movieRowBadDate [movieRowBadDate]).1
     rfl).2 (List.mem_singleton_self _) emptyGraph,
   rfl,
   ((movie_loader_parse_behavior emptyGraph movieRowNA []).2 ⟨1999, 3, 31⟩
     rfl).1⟩

/-! ### C2: the tag-normalization grouping and weight -/

theorem mem_groupKeysOf (l : List TaggedEdge) (k : TagGroupKey)
    (h : k ∈ groupKeysOf l) : ∃ e ∈ l, taggedKey e = k := by
  rcases mem_foldl_addIfAbsent taggedKey l [] k h with h0 | h0
  · cases h0
  · exact h0

theorem length_filter_eq_count {α β : Type} [DecidableEq β] (f : α → β)
    (l : List α) (k : β) :
    (l.filter (fun e => f e == k)).length = (l.map f).count k := by
  induction l with
  | nil => simp
  | cons a rest ih =>
    by_cases h : f a = k
    · simp [List.filter_cons, List.count_cons, h, ih]
    · simp [List.filter_cons, List.count_cons, h, ih]

theorem freqOf_eq_one (rows : List TaggedEdge)
    (hnd : (rows.map taggedKey).Nodup) (k : TagGroupKey)
    (hk : k ∈ groupKeysOf rows) : freqOf rows k = 1 := by
  obtain ⟨e, he, hke⟩ := mem_groupKeysOf rows k hk
  have hmem : k ∈ rows.map taggedKey := by
    rw [← hke]
    exact List.mem_map_of_mem taggedKey he
  rw [freqOf, length_filter_eq_count]
  exact List.count_eq_one_of_mem hnd hmem

theorem upsertApplied_hasTag (g : Graph) (uid tagName : String)
    (ts : Option Int) : (upsertApplied g uid tagName ts).hasTag = g.hasTag := by
  unfold upsertApplied
  split <;> rfl

theorem mem_upsertHasTag (g : Graph) (mid tagName : String) (w : ℚ) :
    ∀ e ∈ (upsertHasTag g mid tagName w).hasTag, e ∈ g.hasTag ∨ e.weight = w := by
  unfold upsertHasTag
  split
  · intro e he
    replace he : e ∈ g.hasTag.map (fun e =>
        if e.movie = mid ∧ e.tag = tagName then ⟨mid, tagName, w⟩ else e) := he
    rw [List.mem_map] at he
    obtain ⟨old, hold, heq⟩ := he
    by_cases hc : old.movie = mid ∧ old.tag = tagName
    · rw [if_pos hc] at heq
      right
      rw [← heq]
    · rw [if_neg hc] at heq
      left
      rw [← heq]
      exact hold
  · intro e he
    replace he : e ∈ g.hasTag ++ [⟨mid, tagName, w⟩] := he
    rcases List.mem_append.mp he with h | h
    · exact Or.inl h
    · right
      rw [List.mem_singleton.mp h]

/-- C2 (amended): the `WITH` clause of the normalization query groups the
transient edges by every non-aggregated projection — `(Movie, raw tag
text, timestamp, User)`, not by `(Movie, tag text)` alone — so
`tagFrequency` counts only edges identical in all four components.  When
all tag applications are pairwise distinct in that key (e.g. distinct
timestamps or users), every group has frequency 1 and every `HAS_TAG`
edge produced from an initially `HAS_TAG`-free graph ends with weight
`0.1`, regardless of how many times the tag was applied to the movie. -/
theorem tag_normalization_fine_grouping (g : Graph)
    (h0 : g.hasTag = [])
    (hnd : ((taggedMatchRows g).map taggedKey).Nodup) :
    ∀ e ∈ (tag_normalization g).hasTag, e.weight = 1 / 10 := by
  unfold tag_normalization
  refine foldl_invariant (fun acc => ∀ e ∈ acc.hasTag, e.weight = 1 / 10)
    (fun acc k => applyTagGroup acc k (freqOf (taggedMatchRows g) k))
    (groupKeysOf (taggedMatchRows g)) g ?_ ?_
  · intro e he
    rw [h0] at he
    cases he
  · intro acc k hk hacc
    have hfreq : freqOf (taggedMatchRows g) k = 1 :=
      freqOf_eq_one _ hnd k hk
    intro e he
    simp only [applyTagGroup] at he
    rw [upsertApplied_hasTag] at he
    have hup := mem_upsertHasTag
      { acc with tags := addIfAbsent (normTag k.rawTag) acc.tags }
      k.movie (normTag k.rawTag)
      ((freqOf (taggedMatchRows g) k : ℚ) * (1 / 10))
      e he
    rcases hup with h | h
    · exact hacc e h
    · rw [h, hfreq]
      norm_num

/-- The graph with one movie and two raw applications of the same tag text
to it by two users at distinct timestamps. -/
def gC2 : Graph :=
  loadTags gOneMovie [⟨"u1", "1", "great", "10"⟩, ⟨"u2", "1", "great", "20"⟩]

/-- C2 counterexample: tag `"great"` is applied twice to movie `"1"` (by
two users), yet normalization leaves `HAS_TAG.weight = 0.1`, not the
claimed `2 × 0.1`: the grouping is finer than `(Movie, tag text)`, so
each group has frequency 1. -/
theorem tag_group_counterexample :
    gC2.tagged.length = 2 ∧
    (tag_normalization gC2).hasTag = [⟨"1", "great", 1 / 10⟩] ∧
    ¬ ((1 : ℚ) / 10 = 2 * (1 / 10)) := by
  refine ⟨by decide, by with_unfolding_all decide, by norm_num⟩

/-- C2 witness: the fine-grouping theorem applied to `gC2`; the produced
`HAS_TAG` edge has weight `0.1`. -/
theorem tag_normalization_fine_grouping_witness :
    gC2.hasTag = [] ∧
    (⟨"1", "great", 1 / 10⟩ : HasTagEdge) ∈ (tag_normalization gC2).hasTag ∧
    (⟨"1", "great", (1 : ℚ) / 10⟩ : HasTagEdge).weight = 1 / 10 :=
  ⟨by decide, by with_unfolding_all decide,
   tag_normalization_fine_grouping gC2 (by decide) (by decide)
     ⟨"1", "great", 1 / 10⟩ (by with_unfolding_all decide)⟩

/-! ### C3: tag text collapse and usageCount -/

theorem upsertHasTag_tags (g : Graph) (mid tagName : String) (w : ℚ) :
    (upsertHasTag g mid tagName w).tags = g.tags := by
  unfold upsertHasTag
  split <;> rfl

theorem upsertApplied_tags (g : Graph) (uid tagName : String) (ts : Option Int) :
    (upsertApplied g uid tagName ts).tags = g.tags := by
  unfold upsertApplied
  split <;> rfl

theorem applyTagGroup_tags (g : Graph) (k : TagGroupKey) (freq : Nat) :
    (applyTagGroup g k freq).tags = addIfAbsent (normTag k.rawTag) g.tags := by
  simp only [applyTagGroup, upsertApplied_tags, upsertHasTag_tags]

/-- C3 (amended): two raw tag strings differing only by case and
surrounding whitespace collapse into one `Tag` node keyed by
`trim(toLower(·))` — the normalization pass only ever creates `Tag` nodes
keyed by the normalized text and never duplicates a `Tag` name — but the
tag's `usageCount` (STEP 7) is the number of `HAS_TAG` edges into the tag
(i.e. the number of distinct movies bearing it), not the combined
application count. -/
theorem tag_collapse_and_usage :
    normTag "Great Movie " = "great movie" ∧
    normTag "great movie" = "great movie" ∧
    (∀ g : Graph, g.tags.Nodup → (tag_normalization g).tags.Nodup) ∧
    (∀ (g : Graph) (t : String), t ∈ (tag_normalization g).tags →
      t ∈ g.tags ∨ ∃ e ∈ taggedMatchRows g, t = normTag e.tag) ∧
    (∀ (g : Graph) (t : String), t ∈ g.tags → hasTagRowsOf g t ≠ [] →
      lookupA (tagUsagePass g).tagUsageCount t =
        some (hasTagRowsOf g t).length) := by
  refine ⟨rfl, rfl, ?_, ?_, ?_⟩
  · intro g hnd
    unfold tag_normalization
    refine foldl_invariant (fun acc => acc.tags.Nodup)
      (fun acc k => applyTagGroup acc k (freqOf (taggedMatchRows g) k))
      (groupKeysOf (taggedMatchRows g)) g hnd ?_
    intro acc k _ hacc
    show (applyTagGroup acc k (freqOf (taggedMatchRows g) k)).tags.Nodup
    rw [applyTagGroup_tags]
    exact nodup_addIfAbsent _ _ hacc
  · intro g
    unfold tag_normalization
    refine foldl_invariant (fun acc => ∀ t ∈ acc.tags,
        t ∈ g.tags ∨ ∃ e ∈ taggedMatchRows g, t = normTag e.tag)
      (fun acc k => applyTagGroup acc k (freqOf (taggedMatchRows g) k))
      (groupKeysOf (taggedMatchRows g)) g (fun t ht => Or.inl ht) ?_
    intro acc k hk hacc t ht
    replace ht : t ∈ (applyTagGroup acc k (freqOf (taggedMatchRows g) k)).tags := ht
    rw [applyTagGroup_tags] at ht
    rcases (mem_addIfAbsent _ _ _).mp ht with h | h
    · exact hacc t h
    · obtain ⟨e, he, hke⟩ := mem_groupKeysOf _ k hk
      right
      refine ⟨e, he, ?_⟩
      rw [h, ← hke]
      rfl
  · intro g t ht hne
    simp only [tagUsagePass]
    refine lookupA_setForEach_mem g.tags _ g.tagUsageCount t _ ?_ (Or.inl ht)
    simp [List.isEmpty_iff, hne]

/-- The graph with one movie and the two raw tag strings `"Great Movie "`
and `"great movie"` applied to it by two users. -/
def gC3 : Graph :=
  loadTags gOneMovie
    [⟨"u1", "1", "Great Movie ", "10"⟩, ⟨"u2", "1", "great movie", "20"⟩]

/-- The fully normalized and usage-counted graph for the C3 scenario. -/
def gC3n : Graph := tagUsagePass (tag_normalization gC3)

/-- C3 counterexample: the two raw strings collapse into the single Tag
node `"great movie"` as claimed, but its `usageCount` is 1 — the number of
movies bearing the tag — while the combined application count is 2. -/
theorem tag_usage_counterexample :
    gC3.tagged.length = 2 ∧
    gC3n.tags = ["great movie"] ∧
    lookupA gC3n.tagUsageCount "great movie" = some 1 ∧
    ¬ ((1 : Nat) = 2) := by
  refine ⟨by decide, by with_unfolding_all decide,
    by with_unfolding_all decide, by decide⟩

/-! ### C7: the user statistics pass -/

/-- The pair of user-statistics property stores. -/
def projUserStats (g : Graph) : List (String × Option ℚ) × List (String × Nat) :=
  (g.userAvgRating, g.userTotalRatings)

theorem foldl_proj_const {α γ : Type} (proj : Graph → γ) (f : Graph → α → Graph)
    (h : ∀ g a, proj (f g a) = proj g) :
    ∀ (l : List α) (g : Graph), proj (l.foldl f g) = proj g := by
  intro l
  induction l with
  | nil => intro g; rfl
  | cons a rest ih =>
    intro g
    rw [List.foldl_cons, ih (f g a), h g a]

theorem upsertMovie_userStats (g : Graph) (m : MovieNode) :
    projUserStats (upsertMovie g m) = projUserStats g := by
  unfold upsertMovie
  split <;> rfl

theorem addDirectorsFold_userStats (mid : String) (g : Graph) (l : List String) :
    projUserStats (addDirectorsFold mid g l) = projUserStats g := by
  unfold addDirectorsFold
  apply foldl_proj_const
  intro g a
  rfl

theorem addActorsFold_userStats (mid : String) (g : Graph) (l : List String) :
    projUserStats (addActorsFold mid g l) = projUserStats g := by
  unfold addActorsFold
  apply foldl_proj_const
  intro g a
  rfl

theorem addGenresFold_userStats (mid : String) (g : Graph) (l : List String) :
    projUserStats (addGenresFold mid g l) = projUserStats g := by
  unfold addGenresFold
  apply foldl_proj_const
  intro g a
  rfl

theorem movieRowEffect_userStats (g : Graph) (row : MovieRow) (d : SimpleDate) :
    projUserStats (movieRowEffect g row d) = projUserStats g := by
  simp only [movieRowEffect]
  rw [addGenresFold_userStats, addActorsFold_userStats,
    addDirectorsFold_userStats, upsertMovie_userStats]

theorem loadMovies_userStats (rows : List MovieRow) (g g' : Graph)
    (h : loadMovies g rows = .ok g') : projUserStats g' = projUserStats g := by
  refine foldlM_except_rel (fun a b => projUserStats b = projUserStats a)
    processMovieRow (fun _ => rfl)
    (fun a b c (h1 : projUserStats b = projUserStats a)
      (h2 : projUserStats c = projUserStats b) => h2.trans h1) ?_ rows g g' h
  intro b row b' hb
  simp only [processMovieRow] at hb
  cases hp : parseDate row.released with
  | none =>
    rw [hp] at hb
    exact Except.noConfusion hb
  | some d =>
    rw [hp] at hb
    injection hb with hb
    rw [← hb]
    exact movieRowEffect_userStats b row d

theorem processRatingRow_userStats (g : Graph) (row : RatingRow) :
    projUserStats (processRatingRow g row) = projUserStats g := by
  simp only [processRatingRow]
  split <;> rfl

theorem loadRatings_userStats (g : Graph) (rows : List RatingRow) :
    projUserStats (loadRatings g rows) = projUserStats g := by
  unfold loadRatings
  apply foldl_proj_const
  exact processRatingRow_userStats

theorem processTagRow_userStats (g : Graph) (row : TagRow) :
    projUserStats (processTagRow g row) = projUserStats g := by
  simp only [processTagRow]
  split <;> rfl

theorem loadTags_userStats (g : Graph) (rows : List TagRow) :
    projUserStats (loadTags g rows) = projUserStats g := by
  unfold loadTags
  apply foldl_proj_const
  exact processTagRow_userStats

theorem upsertHasTag_userStats (g : Graph) (mid tagName : String) (w : ℚ) :
    projUserStats (upsertHasTag g mid tagName w) = projUserStats g := by
  unfold upsertHasTag
  split <;> rfl

theorem upsertApplied_userStats (g : Graph) (uid tagName : String)
    (ts : Option Int) :
    projUserStats (upsertApplied g uid tagName ts) = projUserStats g := by
  unfold upsertApplied
  split <;> rfl

theorem applyTagGroup_userStats (g : Graph) (k : TagGroupKey) (freq : Nat) :
    projUserStats (applyTagGroup g k freq) = projUserStats g := by
  simp only [applyTagGroup]
  rw [upsertApplied_userStats, upsertHasTag_userStats]
  rfl

theorem tag_normalization_userStats (g : Graph) :
    projUserStats (tag_normalization g) = projUserStats g := by
  unfold tag_normalization
  apply foldl_proj_const
  intro g' k
  exact applyTagGroup_userStats g' k _

theorem cypherAvg_map_some (qs : List ℚ) (h : qs ≠ []) :
    cypherAvg (qs.map some) = some (qs.sum / (qs.length : ℚ)) := by
  simp only [cypherAvg]
  have hfm : (qs.map some).filterMap id = qs := by
    induction qs with
    | nil => rfl
    | cons a l ih => simp [List.filterMap_cons, ih]
  rw [hfm, if_neg (fun h0 => h (List.length_eq_zero.mp h0))]

/-- C7: the user-enrichment pass.  For a `User` node with at least one
`RATED` edge to an existing movie (all carrying numeric ratings `qs`), the
pass overwrites `avgRating` with the mean of `qs` and `totalRatings` with
the edge count, irrespective of any previously stored values; a user with
no matched `RATED` row is untouched by the pass, and in a full pipeline
run such a user ends with both attributes unset (`none`). -/
theorem user_enrichment_spec :
    ∀ (g : Graph) (u : String) (qs : List ℚ),
      (u ∈ g.users →
        (ratedRowsOf g u).map (fun r => r.rating) = qs.map some →
        qs ≠ [] →
        lookupA (user_enrichment g).userAvgRating u =
          some (some (qs.sum / (qs.length : ℚ))) ∧
        lookupA (user_enrichment g).userTotalRatings u = some qs.length) ∧
      (ratedRowsOf g u = [] →
        lookupA (user_enrichment g).userAvgRating u =
          lookupA g.userAvgRating u ∧
        lookupA (user_enrichment g).userTotalRatings u =
          lookupA g.userTotalRatings u) ∧
      (∀ (mr : List MovieRow) (rr : List RatingRow) (tr : List TagRow)
          (gf : Graph), runPipeline mr rr tr = .ok gf →
        ratedRowsOf gf u = [] →
        lookupA gf.userAvgRating u = none ∧
        lookupA gf.userTotalRatings u = none) := by
  intro g u qs
  refine ⟨?_, ?_, ?_⟩
  · intro hu hmap hqs
    have hes : ratedRowsOf g u ≠ [] := by
      intro h0
      rw [h0] at hmap
      exact hqs (List.map_eq_nil_iff.mp hmap.symm)
    have hlen : (ratedRowsOf g u).length = qs.length := by
      have := congrArg List.length hmap
      simpa using this
    have hemp : (ratedRowsOf g u).isEmpty = false := by
      simp [List.isEmpty_iff, hes]
    constructor
    · show lookupA (setForEach g.users (fun v =>
        if (ratedRowsOf g v).isEmpty then none
        else some (cypherAvg ((ratedRowsOf g v).map (fun r => r.rating))))
        g.userAvgRating) u = _
      refine lookupA_setForEach_mem _ _ _ _ _ ?_ (Or.inl hu)
      rw [hemp]
      simp only [Bool.false_eq_true, if_false]
      rw [hmap, cypherAvg_map_some qs hqs]
    · show lookupA (setForEach g.users (fun v =>
        if (ratedRowsOf g v).isEmpty then none
        else some (ratedRowsOf g v).length) g.userTotalRatings) u = _
      refine lookupA_setForEach_mem _ _ _ _ _ ?_ (Or.inl hu)
      rw [hemp]
      simp only [Bool.false_eq_true, if_false]
      rw [hlen]
  · intro h0
    constructor
    · show lookupA (setForEach g.users (fun v =>
        if (ratedRowsOf g v).isEmpty then none
        else some (cypherAvg ((ratedRowsOf g v).map (fun r => r.rating))))
        g.userAvgRating) u = _
      refine lookupA_setForEach_none _ _ _ _ ?_
      rw [h0]
      rfl
    · show lookupA (setForEach g.users (fun v =>
        if (ratedRowsOf g v).isEmpty then none
        else some (ratedRowsOf g v).length) g.userTotalRatings) u = _
      refine lookupA_setForEach_none _ _ _ _ ?_
      rw [h0]
      rfl
  · intro mr rr tr gf hok hrows
    unfold runPipeline at hok
    cases hlm : loadMovies emptyGraph mr with
    | error e =>
      rw [hlm] at hok
      exact Except.noConfusion hok
    | ok g0 =>
      rw [hlm] at hok
      replace hok : Except.ok (pipelineAfterMovies g0 rr tr) = .ok gf := hok
      injection hok with hgf
      subst hgf
      have hstats : projUserStats (deleteTagged (tag_normalization (loadTags
          (loadRatings (addDirectorLabels (addActorLabels g0)) rr) tr))) =
          ([], []) := by
        have h0 : projUserStats g0 = ([], []) :=
          loadMovies_userStats mr emptyGraph g0 hlm
        calc projUserStats (deleteTagged (tag_normalization (loadTags
              (loadRatings (addDirectorLabels (addActorLabels g0)) rr) tr)))
            = projUserStats (tag_normalization (loadTags
              (loadRatings (addDirectorLabels (addActorLabels g0)) rr) tr)) := rfl
          _ = projUserStats (loadTags
              (loadRatings (addDirectorLabels (addActorLabels g0)) rr) tr) :=
              tag_normalization_userStats _
          _ = projUserStats
              (loadRatings (addDirectorLabels (addActorLabels g0)) rr) :=
              loadTags_userStats _ tr
          _ = projUserStats (addDirectorLabels (addActorLabels g0)) :=
              loadRatings_userStats _ rr
          _ = projUserStats g0 := rfl
          _ = ([], []) := h0
      have hAvg : (deleteTagged (tag_normalization (loadTags
          (loadRatings (addDirectorLabels (addActorLabels g0)) rr)
          tr))).userAvgRating = [] := congrArg Prod.fst hstats
      have hTot : (deleteTagged (tag_normalization (loadTags
          (loadRatings (addDirectorLabels (addActorLabels g0)) rr)
          tr))).userTotalRatings = [] := congrArg Prod.snd hstats
      have hrows5 : ratedRowsOf (deleteTagged (tag_normalization (loadTags
          (loadRatings (addDirectorLabels (addActorLabels g0)) rr) tr))) u =
          [] := hrows
      constructor
      · show lookupA (setForEach (deleteTagged (tag_normalization (loadTags
            (loadRatings (addDirectorLabels (addActorLabels g0)) rr)
            tr))).users (fun v =>
            if (ratedRowsOf (deleteTagged (tag_normalization (loadTags
                (loadRatings (addDirectorLabels (addActorLabels g0)) rr)
                tr))) v).isEmpty then none
            else some (cypherAvg ((ratedRowsOf (deleteTagged
              (tag_normalization (loadTags (loadRatings (addDirectorLabels
                (addActorLabels g0)) rr) tr))) v).map (fun r => r.rating))))
            (deleteTagged (tag_normalization (loadTags (loadRatings
              (addDirectorLabels (addActorLabels g0)) rr)
              tr))).userAvgRating) u = none
        rw [lookupA_setForEach_none _ _ _ _ (by rw [hrows5]; rfl), hAvg]
        rfl
      · show lookupA (setForEach (deleteTagged (tag_normalization (loadTags
            (loadRatings (addDirectorLabels (addActorLabels g0)) rr)
            tr))).users (fun v =>
            if (ratedRowsOf (deleteTagged (tag_normalization (loadTags
                (loadRatings (addDirectorLabels (addActorLabels g0)) rr)
                tr))) v).isEmpty then none
            else some (ratedRowsOf (deleteTagged (tag_normalization
              (loadTags (loadRatings (addDirectorLabels (addActorLabels g0))
                rr) tr))) v).length)
            (deleteTagged (tag_normalization (loadTags (loadRatings
              (addDirectorLabels (addActorLabels g0)) rr)
              tr))).userTotalRatings) u = none
        rw [lookupA_setForEach_none _ _ _ _ (by rw [hrows5]; rfl), hTot]
        rfl

/-- C3 witness: the amended theorem applied to the C3 scenario graph. -/
theorem tag_collapse_and_usage_witness :
    (tag_normalization gC3).tags.Nodup ∧
    lookupA (tagUsagePass (tag_normalization gC3)).tagUsageCount
        "great movie" =
      some (hasTagRowsOf (tag_normalization gC3) "great movie").length :=
  ⟨tag_collapse_and_usage.2.2.1 gC3 (by decide),
   tag_collapse_and_usage.2.2.2.2 (tag_normalization gC3) "great movie"
     (by with_unfolding_all decide) (by with_unfolding_all decide)⟩

/-- A graph where user `"1"` has rated movies `"1"` and `"2"` with 3.0 and
5.0. -/
def gw1 : Graph :=
  { emptyGraph with
      users := ["1"],
      movies := [⟨"1", "A", "", ⟨2000, 1, 1⟩, some 8, 2000⟩,
                 ⟨"2", "B", "", ⟨2001, 1, 1⟩, some 6, 2001⟩,
                 ⟨"3", "C", "", ⟨2002, 1, 1⟩, some 7, 2002⟩],
      rated := [⟨"1", "1", some 3, none⟩, ⟨"1", "2", some 5, none⟩] }

/-- `gw1` after a third rating of 4.0 arrived, with stale previously
computed statistics left in place. -/
def gw2 : Graph :=
  { gw1 with
      rated := gw1.rated ++ [⟨"1", "3", some 4, none⟩],
      userAvgRating := [("1", some 99)],
      userTotalRatings := [("1", 2)] }

/-- C7 witness: ratings [3, 5] give avgRating 4 and totalRatings 2; after
a third rating of 4 the rerun recomputes avgRating 4 and totalRatings 3,
overwriting the stale stored values (99, 2), not blending with them. -/
theorem user_enrichment_spec_witness :
    lookupA (user_enrichment gw1).userAvgRating "1" = some (some 4) ∧
    lookupA (user_enrichment gw1).userTotalRatings "1" = some 2 ∧
    lookupA gw2.userAvgRating "1" = some (some 99) ∧
    lookupA (user_enrichment gw2).userAvgRating "1" = some (some 4) ∧
    lookupA (user_enrichment gw2).userTotalRatings "1" = some 3 := by
  have h1 := (user_enrichment_spec gw1 "1" [3, 5]).1 (by decide)
    (by with_unfolding_all decide) (by decide)
  have h2 := (user_enrichment_spec gw2 "1" [3, 5, 4]).1 (by decide)
    (by with_unfolding_all decide) (by decide)
  refine ⟨?_, ?_, rfl, ?_, ?_⟩
  · rw [h1.1]
    norm_num
  · exact h1.2
  · rw [h2.1]
    norm_num
  · exact h2.2

/-! ### C6: transient-edge cleanup and the no-deletion lifecycle -/

/-- The movie node ids of a graph. -/
def movieIds (g : Graph) : List String := g.movies.map (fun m => m.id)

/-- The `HAS_TAG` edge identities (endpoints). -/
def hasTagKeys (g : Graph) : List (String × String) :=
  g.hasTag.map (fun e => (e.movie, e.tag))

/-- The `APPLIED_TAG` edge identities (endpoints). -/
def appliedKeys (g : Graph) : List (String × String) :=
  g.applied.map (fun e => (e.user, e.tag))

/-- Every node, label and edge of `g` other than `TAGGED` survives (by
identity) into `g'`.  For edges whose properties are overwritten in place
(`HAS_TAG`, `APPLIED_TAG`) survival is stated on the endpoint pair; for
`Movie` nodes on the id. -/
def preservesButTagged (g g' : Graph) : Prop :=
  g.users ⊆ g'.users ∧ movieIds g ⊆ movieIds g' ∧ g.persons ⊆ g'.persons ∧
  g.genres ⊆ g'.genres ∧ g.tags ⊆ g'.tags ∧ g.directed ⊆ g'.directed ∧
  g.acted ⊆ g'.acted ∧ g.inGenre ⊆ g'.inGenre ∧ g.rated ⊆ g'.rated ∧
  hasTagKeys g ⊆ hasTagKeys g' ∧ appliedKeys g ⊆ appliedKeys g' ∧
  g.actorLabel ⊆ g'.actorLabel ∧ g.directorLabel ⊆ g'.directorLabel

/-- `preservesButTagged` plus survival of the transient `TAGGED` edges. -/
def preservesGraph (g g' : Graph) : Prop :=
  preservesButTagged g g' ∧ g.tagged ⊆ g'.tagged

theorem preservesButTagged_refl (g : Graph) : preservesButTagged g g :=
  ⟨fun _ h => h, fun _ h => h, fun _ h => h, fun _ h => h, fun _ h => h,
   fun _ h => h, fun _ h => h, fun _ h => h, fun _ h => h, fun _ h => h,
   fun _ h => h, fun _ h => h, fun _ h => h⟩

theorem preservesGraph_refl (g : Graph) : preservesGraph g g :=
  ⟨preservesButTagged_refl g, fun _ h => h⟩

theorem preservesButTagged_trans {a b c : Graph}
    (h1 : preservesButTagged a b) (h2 : preservesButTagged b c) :
    preservesButTagged a c :=
  ⟨fun _ h => h2.1 (h1.1 h),
   fun _ h => h2.2.1 (h1.2.1 h),
   fun _ h => h2.2.2.1 (h1.2.2.1 h),
   fun _ h => h2.2.2.2.1 (h1.2.2.2.1 h),
   fun _ h => h2.2.2.2.2.1 (h1.2.2.2.2.1 h),
   fun _ h => h2.2.2.2.2.2.1 (h1.2.2.2.2.2.1 h),
   fun _ h => h2.2.2.2.2.2.2.1 (h1.2.2.2.2.2.2.1 h),
   fun _ h => h2.2.2.2.2.2.2.2.1 (h1.2.2.2.2.2.2.2.1 h),
   fun _ h => h2.2.2.2.2.2.2.2.2.1 (h1.2.2.2.2.2.2.2.2.1 h),
   fun _ h => h2.2.2.2.2.2.2.2.2.2.1 (h1.2.2.2.2.2.2.2.2.2.1 h),
   fun _ h => h2.2.2.2.2.2.2.2.2.2.2.1 (h1.2.2.2.2.2.2.2.2.2.2.1 h),
   fun _ h => h2.2.2.2.2.2.2.2.2.2.2.2.1 (h1.2.2.2.2.2.2.2.2.2.2.2.1 h),
   fun _ h => h2.2.2.2.2.2.2.2.2.2.2.2.2 (h1.2.2.2.2.2.2.2.2.2.2.2.2 h)⟩

theorem preservesGraph_trans {a b c : Graph}
    (h1 : preservesGraph a b) (h2 : preservesGraph b c) :
    preservesGraph a c :=
  ⟨preservesButTagged_trans h1.1 h2.1, fun _ h => h2.2 (h1.2 h)⟩

theorem foldl_pres {α : Type} (f : Graph → α → Graph)
    (h : ∀ g a, preservesGraph g (f g a)) :
    ∀ (l : List α) (g : Graph), preservesGraph g (l.foldl f g) := by
  intro l
  induction l with
  | nil => intro g; exact preservesGraph_refl g
  | cons a rest ih =>
    intro g
    exact preservesGraph_trans (h g a) (ih (f g a))

theorem upsertMovie_movieIds (g : Graph) (m : MovieNode) :
    movieIds g ⊆ movieIds (upsertMovie g m) := by
  unfold upsertMovie movieIds
  split
  · intro x hx
    rw [List.mem_map] at hx ⊢
    obtain ⟨old, hold, hid⟩ := hx
    refine ⟨if old.id = m.id then m else old, List.mem_map_of_mem _ hold, ?_⟩
    by_cases hco : old.id = m.id
    · rw [if_pos hco, ← hco, hid]
    · rw [if_neg hco, hid]
  · intro x hx
    rw [List.mem_map] at hx ⊢
    obtain ⟨old, hold, hid⟩ := hx
    exact ⟨old, List.mem_append_left _ hold, hid⟩

theorem upsertMovie_pres (g : Graph) (m : MovieNode) :
    preservesGraph g (upsertMovie g m) := by
  refine ⟨⟨?_, upsertMovie_movieIds g m, ?_, ?_, ?_, ?_, ?_, ?_, ?_, ?_,
    ?_, ?_, ?_⟩, ?_⟩ <;>
  · unfold upsertMovie
    split <;> exact fun _ h => h

theorem addDirectorsFold_pres (mid : String) (g : Graph) (l : List String) :
    preservesGraph g (addDirectorsFold mid g l) := by
  unfold addDirectorsFold
  apply foldl_pres
  intro g' a
  exact ⟨⟨fun _ h => h, fun _ h => h, subset_addIfAbsent _ _, fun _ h => h,
    fun _ h => h, subset_addIfAbsent _ _, fun _ h => h, fun _ h => h,
    fun _ h => h, fun _ h => h, fun _ h => h, fun _ h => h, fun _ h => h⟩,
    fun _ h => h⟩

theorem addActorsFold_pres (mid : String) (g : Graph) (l : List String) :
    preservesGraph g (addActorsFold mid g l) := by
  unfold addActorsFold
  apply foldl_pres
  intro g' a
  exact ⟨⟨fun _ h => h, fun _ h => h, subset_addIfAbsent _ _, fun _ h => h,
    fun _ h => h, fun _ h => h, subset_addIfAbsent _ _, fun _ h => h,
    fun _ h => h, fun _ h => h, fun _ h => h, fun _ h => h, fun _ h => h⟩,
    fun _ h => h⟩

theorem addGenresFold_pres (mid : String) (g : Graph) (l : List String) :
    preservesGraph g (addGenresFold mid g l) := by
  unfold addGenresFold
  apply foldl_pres
  intro g' a
  exact ⟨⟨fun _ h => h, fun _ h => h, fun _ h => h, subset_addIfAbsent _ _,
    fun _ h => h, fun _ h => h, fun _ h => h, subset_addIfAbsent _ _,
    fun _ h => h, fun _ h => h, fun _ h => h, fun _ h => h, fun _ h => h⟩,
    fun _ h => h⟩

theorem movieRowEffect_pres (g : Graph) (row : MovieRow) (d : SimpleDate) :
    preservesGraph g (movieRowEffect g row d) := by
  simp only [movieRowEffect]
  exact preservesGraph_trans (upsertMovie_pres g _)
    (preservesGraph_trans (addDirectorsFold_pres _ _ _)
      (preservesGraph_trans (addActorsFold_pres _ _ _)
        (addGenresFold_pres _ _ _)))

theorem loadMovies_pres (rows : List MovieRow) (g g' : Graph)
    (h : loadMovies g rows = .ok g') : preservesGraph g g' := by
  refine foldlM_except_rel preservesGraph processMovieRow preservesGraph_refl
    (fun _ _ _ h1 h2 => preservesGraph_trans h1 h2) ?_ rows g g' h
  intro b row b' hb
  simp only [processMovieRow] at hb
  cases hp : parseDate row.released with
  | none =>
    rw [hp] at hb
    exact Except.noConfusion hb
  | some d =>
    rw [hp] at hb
    injection hb with hb
    rw [← hb]
    exact movieRowEffect_pres b row d

theorem foldl_addIfAbsent_grows {α : Type} [DecidableEq α] (cond : α → Bool) :
    ∀ (l : List α) (acc : List α),
      acc ⊆ l.foldl (fun acc p => if cond p then addIfAbsent p acc else acc) acc := by
  intro l
  induction l with
  | nil => intro acc; exact fun _ h => h
  | cons a rest ih =>
    intro acc
    have h1 : acc ⊆ (if cond a then addIfAbsent a acc else acc) := by
      split
      · exact subset_addIfAbsent _ _
      · exact fun _ h => h
    exact fun x hx => ih _ (h1 hx)

theorem addActorLabels_pres (g : Graph) : preservesGraph g (addActorLabels g) :=
  ⟨⟨fun _ h => h, fun _ h => h, fun _ h => h, fun _ h => h, fun _ h => h,
    fun _ h => h, fun _ h => h, fun _ h => h, fun _ h => h, fun _ h => h,
    fun _ h => h, foldl_addIfAbsent_grows _ g.persons g.actorLabel,
    fun _ h => h⟩, fun _ h => h⟩

theorem addDirectorLabels_pres (g : Graph) :
    preservesGraph g (addDirectorLabels g) :=
  ⟨⟨fun _ h => h, fun _ h => h, fun _ h => h, fun _ h => h, fun _ h => h,
    fun _ h => h, fun _ h => h, fun _ h => h, fun _ h => h, fun _ h => h,
    fun _ h => h, fun _ h => h,
    foldl_addIfAbsent_grows _ g.persons g.directorLabel⟩, fun _ h => h⟩

theorem processRatingRow_pres (g : Graph) (row : RatingRow) :
    preservesGraph g (processRatingRow g row) := by
  simp only [processRatingRow]
  split
  · exact ⟨⟨subset_addIfAbsent _ _, fun _ h => h, fun _ h => h, fun _ h => h,
      fun _ h => h, fun _ h => h, fun _ h => h, fun _ h => h,
      fun _ h => List.mem_append_left _ h, fun _ h => h, fun _ h => h,
      fun _ h => h, fun _ h => h⟩, fun _ h => h⟩
  · exact ⟨⟨subset_addIfAbsent _ _, fun _ h => h, fun _ h => h, fun _ h => h,
      fun _ h => h, fun _ h => h, fun _ h => h, fun _ h => h, fun _ h => h,
      fun _ h => h, fun _ h => h, fun _ h => h, fun _ h => h⟩, fun _ h => h⟩

theorem loadRatings_pres (g : Graph) (rows : List RatingRow) :
    preservesGraph g (loadRatings g rows) := by
  unfold loadRatings
  apply foldl_pres
  exact processRatingRow_pres

theorem processTagRow_pres (g : Graph) (row : TagRow) :
    preservesGraph g (processTagRow g row) := by
  simp only [processTagRow]
  split
  · exact ⟨⟨subset_addIfAbsent _ _, fun _ h => h, fun _ h => h, fun _ h => h,
      fun _ h => h, fun _ h => h, fun _ h => h, fun _ h => h, fun _ h => h,
      fun _ h => h, fun _ h => h, fun _ h => h, fun _ h => h⟩,
      fun _ h => List.mem_append_left _ h⟩
  · exact ⟨⟨subset_addIfAbsent _ _, fun _ h => h, fun _ h => h, fun _ h => h,
      fun _ h => h, fun _ h => h, fun _ h => h, fun _ h => h, fun _ h => h,
      fun _ h => h, fun _ h => h, fun _ h => h, fun _ h => h⟩, fun _ h => h⟩

theorem loadTags_pres (g : Graph) (rows : List TagRow) :
    preservesGraph g (loadTags g rows) := by
  unfold loadTags
  apply foldl_pres
  exact processTagRow_pres

theorem upsertHasTag_keys (g : Graph) (mid tagName : String) (w : ℚ) :
    hasTagKeys g ⊆ hasTagKeys (upsertHasTag g mid tagName w) := by
  unfold upsertHasTag hasTagKeys
  split
  · intro x hx
    rw [List.mem_map] at hx ⊢
    obtain ⟨old, hold, hk⟩ := hx
    refine ⟨if old.movie = mid ∧ old.tag = tagName then ⟨mid, tagName, w⟩
      else old, List.mem_map_of_mem _ hold, ?_⟩
    by_cases hc : old.movie = mid ∧ old.tag = tagName
    · rw [if_pos hc, ← hk]
      simp [hc.1, hc.2]
    · rw [if_neg hc, hk]
  · intro x hx
    rw [List.mem_map] at hx ⊢
    obtain ⟨old, hold, hk⟩ := hx
    exact ⟨old, List.mem_append_left _ hold, hk⟩

theorem upsertHasTag_pres (g : Graph) (mid tagName : String) (w : ℚ) :
    preservesGraph g (upsertHasTag g mid tagName w) := by
  refine ⟨⟨?_, ?_, ?_, ?_, ?_, ?_, ?_, ?_, ?_, upsertHasTag_keys g mid tagName w,
    ?_, ?_, ?_⟩, ?_⟩ <;>
  · unfold upsertHasTag
    split <;> exact fun _ h => h

theorem upsertApplied_keys (g : Graph) (uid tagName : String) (ts : Option Int) :
    appliedKeys g ⊆ appliedKeys (upsertApplied g uid tagName ts) := by
  unfold upsertApplied appliedKeys
  split
  · intro x hx
    rw [List.mem_map] at hx ⊢
    obtain ⟨old, hold, hk⟩ := hx
    refine ⟨if old.user = uid ∧ old.tag = tagName then ⟨uid, tagName, ts⟩
      else old, List.mem_map_of_mem _ hold, ?_⟩
    by_cases hc : old.user = uid ∧ old.tag = tagName
    · rw [if_pos hc, ← hk]
      simp [hc.1, hc.2]
    · rw [if_neg hc, hk]
  · intro x hx
    rw [List.mem_map] at hx ⊢
    obtain ⟨old, hold, hk⟩ := hx
    exact ⟨old, List.mem_append_left _ hold, hk⟩

theorem upsertApplied_pres (g : Graph) (uid tagName : String) (ts : Option Int) :
    preservesGraph g (upsertApplied g uid tagName ts) := by
  refine ⟨⟨?_, ?_, ?_, ?_, ?_, ?_, ?_, ?_, ?_, ?_,
    upsertApplied_keys g uid tagName ts, ?_, ?_⟩, ?_⟩ <;>
  · unfold upsertApplied
    split <;> exact fun _ h => h

theorem applyTagGroup_pres (g : Graph) (k : TagGroupKey) (freq : Nat) :
    preservesGraph g (applyTagGroup g k freq) := by
  simp only [applyTagGroup]
  refine preservesGraph_trans (a := g)
    (b := { g with tags := addIfAbsent (normTag k.rawTag) g.tags }) ?_
    (preservesGraph_trans (upsertHasTag_pres _ _ _ _) (upsertApplied_pres _ _ _ _))
  exact ⟨⟨fun _ h => h, fun _ h => h, fun _ h => h, fun _ h => h,
    subset_addIfAbsent _ _, fun _ h => h, fun _ h => h, fun _ h => h,
    fun _ h => h, fun _ h => h, fun _ h => h, fun _ h => h, fun _ h => h⟩,
    fun _ h => h⟩

theorem tag_normalization_pres (g : Graph) :
    preservesGraph g (tag_normalization g) := by
  unfold tag_normalization
  apply foldl_pres
  intro g' k
  exact applyTagGroup_pres g' k _

theorem deleteTagged_spec (g : Graph) :
    preservesButTagged g (deleteTagged g) ∧ (deleteTagged g).tagged = [] :=
  ⟨⟨fun _ h => h, fun _ h => h, fun _ h => h, fun _ h => h, fun _ h => h,
    fun _ h => h, fun _ h => h, fun _ h => h, fun _ h => h, fun _ h => h,
    fun _ h => h, fun _ h => h, fun _ h => h⟩, rfl⟩

theorem user_enrichment_pres (g : Graph) :
    preservesGraph g (user_enrichment g) :=
  ⟨⟨fun _ h => h, fun _ h => h, fun _ h => h, fun _ h => h, fun _ h => h,
    fun _ h => h, fun _ h => h, fun _ h => h, fun _ h => h, fun _ h => h,
    fun _ h => h, fun _ h => h, fun _ h => h⟩, fun _ h => h⟩

theorem directorStats_pres (g : Graph) : preservesGraph g (directorStats g) :=
  ⟨⟨fun _ h => h, fun _ h => h, fun _ h => h, fun _ h => h, fun _ h => h,
    fun _ h => h, fun _ h => h, fun _ h => h, fun _ h => h, fun _ h => h,
    fun _ h => h, fun _ h => h, fun _ h => h⟩, fun _ h => h⟩

theorem actorStats_pres (g : Graph) : preservesGraph g (actorStats g) :=
  ⟨⟨fun _ h => h, fun _ h => h, fun _ h => h, fun _ h => h, fun _ h => h,
    fun _ h => h, fun _ h => h, fun _ h => h, fun _ h => h, fun _ h => h,
    fun _ h => h, fun _ h => h, fun _ h => h⟩, fun _ h => h⟩

theorem tagUsagePass_pres (g : Graph) : preservesGraph g (tagUsagePass g) :=
  ⟨⟨fun _ h => h, fun _ h => h, fun _ h => h, fun _ h => h, fun _ h => h,
    fun _ h => h, fun _ h => h, fun _ h => h, fun _ h => h, fun _ h => h,
    fun _ h => h, fun _ h => h, fun _ h => h⟩, fun _ h => h⟩

/-- C6: after the STEP 5 cleanup the transient `TAGGED` relationship has
zero instances (and nothing later recreates it, so the pipeline's final
graph has none), and no pipeline stage deletes a node, label or edge of
any other type: each stage's output preserves every user/person/genre/tag
node, movie id, role label, and every `DIRECTED`/`ACTED_IN`/`IN_GENRE`/
`RATED` edge and `HAS_TAG`/`APPLIED_TAG` edge identity — the only
destroyed objects are the `TAGGED` edges, all of them, in the dedicated
cleanup. -/
theorem transient_tag_cleanup :
    (∀ (mr : List MovieRow) (rr : List RatingRow) (tr : List TagRow)
        (gf : Graph), runPipeline mr rr tr = .ok gf → gf.tagged = []) ∧
    (∀ (g g' : Graph) (rows : List MovieRow),
      loadMovies g rows = .ok g' → preservesGraph g g') ∧
    (∀ g : Graph, preservesGraph g (addActorLabels g)) ∧
    (∀ g : Graph, preservesGraph g (addDirectorLabels g)) ∧
    (∀ (g : Graph) (rows : List RatingRow),
      preservesGraph g (loadRatings g rows)) ∧
    (∀ (g : Graph) (rows : List TagRow), preservesGraph g (loadTags g rows)) ∧
    (∀ g : Graph, preservesGraph g (tag_normalization g)) ∧
    (∀ g : Graph,
      preservesButTagged g (deleteTagged g) ∧ (deleteTagged g).tagged = []) ∧
    (∀ g : Graph, preservesGraph g (user_enrichment g)) ∧
    (∀ g : Graph, preservesGraph g (directorStats g)) ∧
    (∀ g : Graph, preservesGraph g (actorStats g)) ∧
    (∀ g : Graph, preservesGraph g (tagUsagePass g)) := by
  refine ⟨?_, fun g g' rows h => loadMovies_pres rows g g' h, addActorLabels_pres,
    addDirectorLabels_pres, loadRatings_pres, loadTags_pres,
    tag_normalization_pres, deleteTagged_spec, user_enrichment_pres,
    directorStats_pres, actorStats_pres, tagUsagePass_pres⟩
  intro mr rr tr gf hok
  unfold runPipeline at hok
  cases hlm : loadMovies emptyGraph mr with
  | error e =>
    rw [hlm] at hok
    exact Except.noConfusion hok
  | ok g0 =>
    rw [hlm] at hok
    replace hok : Except.ok (pipelineAfterMovies g0 rr tr) = .ok gf := hok
    injection hok with hgf
    rw [← hgf]
    rfl

/-- The rating rows used by the concrete pipeline runs. -/
def rrW : List RatingRow := [⟨"1", "1", "4.5", "100"⟩]

/-- The tag rows used by the concrete pipeline runs. -/
def trW : List TagRow := [⟨"1", "1", "great", "10"⟩]

/-- The final graph of the concrete pipeline run on one movie row, one
rating row and one tag row. -/
def gfW : Graph :=
  pipelineAfterMovies (movieRowEffect emptyGraph movieRowNA ⟨1999, 3, 31⟩)
    rrW trW

/-- C6 witness: a full concrete pipeline run succeeds and its final graph
holds zero `TAGGED` edges. -/
theorem transient_tag_cleanup_witness :
    runPipeline [movieRowNA] rrW trW = .ok gfW ∧ gfW.tagged = [] :=
  ⟨by with_unfolding_all rfl,
   transient_tag_cleanup.1 [movieRowNA] rrW trW gfW (by with_unfolding_all rfl)⟩

/-! ### C9: the recommendation query -/

theorem mem_insertSorted {α : Type} (le : α → α → Bool) (x : α) :
    ∀ (l : List α) (y : α), y ∈ insertSorted le x l → y = x ∨ y ∈ l := by
  intro l
  induction l with
  | nil =>
    intro y hy
    exact Or.inl (List.mem_singleton.mp hy)
  | cons z zs ih =>
    intro y hy
    unfold insertSorted at hy
    split at hy
    · rcases List.mem_cons.mp hy with rfl | hy2
      · exact Or.inl rfl
      · exact Or.inr hy2
    · rcases List.mem_cons.mp hy with rfl | hy2
      · exact Or.inr (List.mem_cons_self _ _)
      · rcases ih y hy2 with h | h
        · exact Or.inl h
        · exact Or.inr (List.mem_cons_of_mem _ h)

theorem mem_insertionSort {α : Type} (le : α → α → Bool) :
    ∀ (l : List α) (y : α), y ∈ insertionSort le l → y ∈ l := by
  intro l
  induction l with
  | nil => intro y hy; exact absurd hy (List.not_mem_nil y)
  | cons z zs ih =>
    intro y hy
    unfold insertionSort at hy
    rcases mem_insertSorted le z _ y hy with rfl | hy2
    · exact List.mem_cons_self _ _
    · exact List.mem_cons_of_mem _ (ih y hy2)

theorem pairwise_insertSorted {α : Type} (le : α → α → Bool)
    (htot : ∀ a b, le a b = true ∨ le b a = true)
    (htrans : ∀ a b c, le a b = true → le b c = true → le a c = true)
    (x : α) :
    ∀ l : List α, l.Pairwise (fun a b => le a b = true) →
      (insertSorted le x l).Pairwise (fun a b => le a b = true) := by
  intro l
  induction l with
  | nil => intro _; exact List.pairwise_singleton _ _
  | cons z zs ih =>
    intro hp
    unfold insertSorted
    split
    · rename_i hle
      refine List.pairwise_cons.mpr ⟨?_, hp⟩
      intro y hy
      rcases List.mem_cons.mp hy with rfl | hy2
      · exact hle
      · exact htrans x z y hle ((List.pairwise_cons.mp hp).1 y hy2)
    · rename_i hle
      have hzx : le z x = true := by
        rcases htot x z with h | h
        · exact absurd h hle
        · exact h
      obtain ⟨hz, hzs⟩ := List.pairwise_cons.mp hp
      refine List.pairwise_cons.mpr ⟨?_, ih hzs⟩
      intro y hy
      rcases mem_insertSorted le x zs y hy with rfl | hy2
      · exact hzx
      · exact hz y hy2

theorem pairwise_insertionSort {α : Type} (le : α → α → Bool)
    (htot : ∀ a b, le a b = true ∨ le b a = true)
    (htrans : ∀ a b c, le a b = true → le b c = true → le a c = true) :
    ∀ l : List α,
      (insertionSort le l).Pairwise (fun a b => le a b = true) := by
  intro l
  induction l with
  | nil => exact List.Pairwise.nil
  | cons z zs ih =>
    unfold insertionSort
    exact pairwise_insertSorted le htot htrans z _ ih

theorem mem_candidateRows (g : Graph) (uid : String)
    (c : String × MovieNode × ℚ) (hc : c ∈ candidateRows g uid) :
    c.1 ∈ topGenres g uid ∧ c.2.1 ∈ g.movies ∧
    c.2.1.imdbRating = some c.2.2 ∧
    ratedByUser g uid c.2.1.id = false ∧ (7 : ℚ) < c.2.2 := by
  unfold candidateRows at hc
  rw [List.mem_flatMap] at hc
  obtain ⟨gn, hgn, hc⟩ := hc
  rw [List.mem_flatMap] at hc
  obtain ⟨e, _, hc⟩ := hc
  rw [List.mem_filterMap] at hc
  obtain ⟨m, hm, hcm⟩ := hc
  have hmov : m ∈ g.movies := List.mem_of_mem_filter hm
  split at hcm
  · cases hcm
  · rename_i q hr
    split at hcm
    · cases hcm
    · rename_i hrb
      split at hcm
      · rename_i hq
        injection hcm with hcm
        rw [← hcm]
        refine ⟨hgn, hmov, hr, ?_, hq⟩
        simpa using hrb
      · cases hcm

/-- C9 (amended): the recommendation query returns at most 5 rows, sorted
by `imdbRating` descending; every returned row corresponds to a movie the
user has not rated whose rating is strictly above 7.0; its reported genre
list contains only genres among the selected top-3 liked genres (the
genres through which the movie was reached) — not the movie's full genre
set. -/
theorem test_query_spec : ∀ (g : Graph) (uid : String),
    (test_query g uid).length ≤ 5 ∧
    List.Pairwise (fun a b => b.imdbRating ≤ a.imdbRating) (test_query g uid) ∧
    ∀ row ∈ test_query g uid,
      (∀ gn ∈ row.genres, gn ∈ topGenres g uid) ∧
      ∃ m ∈ g.movies, m.title = row.title ∧ m.imdbRating = some row.imdbRating ∧
        ratedByUser g uid m.id = false ∧ (7 : ℚ) < row.imdbRating := by
  intro g uid
  have htot : ∀ a b : RecRow,
      decide (b.imdbRating ≤ a.imdbRating) = true ∨
      decide (a.imdbRating ≤ b.imdbRating) = true := by
    intro a b
    rcases le_total b.imdbRating a.imdbRating with h | h
    · exact Or.inl (decide_eq_true h)
    · exact Or.inr (decide_eq_true h)
  have htrans : ∀ a b c : RecRow,
      decide (b.imdbRating ≤ a.imdbRating) = true →
      decide (c.imdbRating ≤ b.imdbRating) = true →
      decide (c.imdbRating ≤ a.imdbRating) = true := by
    intro a b c h1 h2
    exact decide_eq_true (le_trans (of_decide_eq_true h2) (of_decide_eq_true h1))
  simp only [test_query]
  refine ⟨?_, ?_, ?_⟩
  · exact List.length_take_le 5 _
  · exact ((pairwise_insertionSort _ htot htrans _).sublist
      (List.take_sublist 5 _)).imp (fun h => of_decide_eq_true h)
  · intro row hrow
    have hrow2 := List.mem_of_mem_take hrow
    have hrow3 := mem_insertionSort _ _ row hrow2
    rw [List.mem_map] at hrow3
    obtain ⟨k, hk, hrk⟩ := hrow3
    rcases mem_foldl_addIfAbsent (fun c => (c.2.1.title, c.2.2))
      (candidateRows g uid) [] k hk with h0 | ⟨c, hc, hck⟩
    · cases h0
    have hk1 : c.2.1.title = k.1 := congrArg Prod.fst hck
    have hk2 : c.2.2 = k.2 := congrArg Prod.snd hck
    have hcand := mem_candidateRows g uid c hc
    constructor
    · intro gn hgn
      rw [← hrk] at hgn
      simp only [List.mem_map] at hgn
      obtain ⟨c', hc', hgn'⟩ := hgn
      rw [← hgn']
      exact (mem_candidateRows g uid c' (List.mem_of_mem_filter hc')).1
    · refine ⟨c.2.1, hcand.2.1, ?_, ?_, hcand.2.2.2.1, ?_⟩
      · rw [← hrk]
        exact hk1
      · rw [← hrk]
        rw [hcand.2.2.1, hk2]
      · rw [← hrk]
        rw [← hk2]
        exact hcand.2.2.2.2

/-- The C9 scenario graph: user `"1"` liked the Action movie `m1`; the
candidate `m2` (rating 8, unrated) is in both `Action` and `Romance`, but
only `Action` is among the user's liked genres. -/
def grC9 : Graph :=
  { emptyGraph with
      users := ["1"],
      movies := [⟨"m1", "Liked", "", ⟨1999, 1, 1⟩, some 8, 1999⟩,
                 ⟨"m2", "X", "", ⟨1999, 1, 1⟩, some 8, 1999⟩],
      genres := ["Action", "Romance"],
      inGenre := [("m1", "Action"), ("m2", "Action"), ("m2", "Romance")],
      rated := [⟨"1", "m1", some 5, some 1⟩] }

/-- C9 counterexample: the query returns movie `X` with genre list
`["Action"]` — only the top liked genre through which it was reached —
while `X`'s actual genre set is `["Action", "Romance"]`; the returned row
does not carry the movie's genre set. -/
theorem rec_genres_counterexample :
    test_query grC9 "1" = [⟨"X", 8, ["Action"]⟩] ∧
    genresOfMovie grC9 "m2" = ["Action", "Romance"] ∧
    (["Action"] : List String) ≠ ["Action", "Romance"] := by
  refine ⟨by with_unfolding_all decide, by decide, by decide⟩

/-- C9 witness: the amended query theorem applied to the scenario graph;
the single returned row is within the limit, sorted, and its genre
(`"Action"`) is among the selected top genres. -/
theorem test_query_spec_witness :
    (test_query grC9 "1").length ≤ 5 ∧
    List.Pairwise (fun a b => b.imdbRating ≤ a.imdbRating)
      (test_query grC9 "1") ∧
    "Action" ∈ topGenres grC9 "1" :=
  ⟨(test_query_spec grC9 "1").1,
   (test_query_spec grC9 "1").2.1,
   ((test_query_spec grC9 "1").2.2 ⟨"X", 8, ["Action"]⟩
     (by with_unfolding_all decide)).1 "Action" (by decide)⟩

end Movielens
